import Mathlib

/-!
A shallow embedding of the flac/mp3 synchronisation script in
src/synch_to_mp3.py, together with theorems checking the specification
claims against it.

Modelling conventions:
* Python strings that get split, formatted or concatenated (tag values)
  are modelled as lists of characters (`Val`); plain identifiers that are
  only compared for equality (field names, frame ids) stay `String`.
* Python dicts are insertion-ordered association lists.  `dictSet`
  mirrors `d[k] = v` (replace in place for an existing key, append a new
  key at the end), `dlookup` mirrors `d[k]`, `dictUpdate` mirrors
  `d1.update(d2)`.
* Code that can raise an unhandled Python exception is modelled in
  `Except String`, the message naming the exception.
-/

namespace SyncMp3

/-- Python `str` values that undergo splitting / formatting, as a list of
characters. -/
abbrev Val := List Char

/-- Python dict assignment `d[k] = v`: replaces the value of an existing
key in place (keeping its position) and appends a fresh key at the end. -/
def dictSet {κ α : Type} [DecidableEq κ] : List (κ × α) → κ → α → List (κ × α)
  | [], k, v => [(k, v)]
  | (k', v') :: rest, k, v =>
    if k' = k then (k', v) :: rest else (k', v') :: dictSet rest k v

/-- Python dict lookup `d[k]` (the first binding wins, matching the unique
keys of a real dict). -/
def dlookup {κ α : Type} [DecidableEq κ] : List (κ × α) → κ → Option α
  | [], _ => none
  | (k', v) :: rest, k => if k' = k then some v else dlookup rest k

/-- Python `d1.update(d2)`. -/
def dictUpdate {κ α : Type} [DecidableEq κ] (d1 d2 : List (κ × α)) : List (κ × α) :=
  d2.foldl (fun d p => dictSet d p.1 p.2) d1

/-- Python dict equality `d1 == d2`: the two dicts bind the same keys to
the same values, with insertion order irrelevant across keys (each value
is itself compared as a whole, so a list value keeps its internal
order). -/
def pyDictEq {κ α : Type} [DecidableEq κ] [DecidableEq α]
    (d1 d2 : List (κ × α)) : Bool :=
  (d1.all fun p => decide (dlookup d1 p.1 = dlookup d2 p.1)) &&
  (d2.all fun p => decide (dlookup d1 p.1 = dlookup d2 p.1))

/-- Python `s.split(sep)` for a one-character separator. -/
def pySplit (sep : Char) : Val → List Val
  | [] => [[]]
  | c :: rest =>
    match pySplit sep rest with
    | [] => [[]]
    | h :: t => if c = sep then [] :: h :: t else (c :: h) :: t



/-! ### The tag model

`Frame` models a mutagen ID3 frame, reduced to the attributes the script
reads: `FrameID` plus the optional `desc` and `text` attributes (`none`
models a frame class without that attribute, so that reading it raises
`AttributeError`).  An ID3 container (`Frames`) is a dict from hash keys
to frames; mutagen keys a plain frame by its frame id and a TXXX frame by
the string `TXXX:desc`, which we carry as the pair `HKey`. -/

structure Frame where
  frameID : String
  desc : Option String
  text : Option (List Val)
deriving DecidableEq

structure HKey where
  fid : String
  dsc : Option String
deriving DecidableEq

def hashKey (f : Frame) : HKey :=
  if f.frameID = "TXXX" then ⟨"TXXX", some (f.desc.getD "")⟩ else ⟨f.frameID, none⟩

abbrev Frames := List (HKey × Frame)

/-- mutagen `ID3.add` (a dict assignment keyed by the frame's hash key). -/
def addFrame (fs : Frames) (f : Frame) : Frames :=
  dictSet fs (hashKey f) f

/-- mutagen `ID3.delall`: drop every frame stored under the given key. -/
def delall (fs : Frames) (k : HKey) : Frames :=
  fs.filter fun p => decide (p.1 ≠ k)

/-- A vorbis field dict (`flac_like dict`): field name to list of values. -/
abbrev FieldDict := List (String × List Val)

/-! ### Configuration constants of the script -/

/-- `vorbis_to_id3_map` from the configuration block of the script. -/
def vorbis_to_id3_map : List (String × String) :=
  [("artist", "TPE1"), ("title", "TIT2"), ("album", "TALB"),
   ("albumartist", "TPE2"), ("tracknumber", "TRCK"), ("discnumber", "TPOS"),
   ("composer", "TCOM"), ("conductor", "TPE3"), ("remixer", "TPE4"),
   ("date", "TDRC"), ("comment", "COMM"), ("genre", "TCON"),
   ("language", "TLAN"), ("bpm", "TBPM")]

/-- `id3_frames_to_ignore` from the configuration block of the script. -/
def id3_frames_to_ignore : List String := ["TSSE"]

/-- Modelled from mutagen: the keys of the `id3.Frames` registry of valid
frame classes (the frame ids the script's `assert frame_name in id3.Frames`
accepts).  A representative subset containing every id the script's
configuration uses plus common further ids. -/
def validFrameIds : List String :=
  ["TPE1", "TIT2", "TALB", "TPE2", "TRCK", "TPOS", "TCOM", "TPE3", "TPE4",
   "TDRC", "COMM", "TCON", "TLAN", "TBPM", "TXXX", "TSSE", "TIT1", "TIT3",
   "TKEY", "TLEN", "TMOO", "TOAL", "TOPE", "TPUB", "TSRC", "APIC", "USLT",
   "WXXX", "TFLT", "TENC"]

/-! ### Field to frame conversion -/

/-- Frames constructed through a mutagen frame class as
`frame_type(encoding=3, text=value)`: every class the script reaches this
way is a text frame; the TXXX and COMM classes also carry a `desc`
attribute defaulting to the empty string. -/
def mkTagFrame (fid : String) (value : List Val) : Frame :=
  { frameID := fid
    desc := if fid = "TXXX" ∨ fid = "COMM" then some "" else none
    text := some value }

/-- `get_id3_frame`, parameterised by the configurable field-to-frame
table (the script reads the global `vorbis_to_id3_map`). -/
def get_id3_frame_gen (vmap : List (String × String)) (tagName : String)
    (tagValue : List Val) : Except String Frame :=
  match dlookup vmap tagName with
  | some frameName =>
    if frameName ∈ validFrameIds then .ok (mkTagFrame frameName tagValue)
    else .error ("AssertionError: " ++ frameName ++
      " in vorbis_to_id3_map is not a valid frame type")
  | none => .ok { frameID := "TXXX", desc := some tagName, text := some tagValue }

def get_id3_frame : String → List Val → Except String Frame :=
  get_id3_frame_gen vorbis_to_id3_map

/-- `frame.text[0]`: raises AttributeError on a frame without a text
attribute and IndexError on an empty text list. -/
def getText0 (f : Frame) : Except String Val :=
  match f.text with
  | none => .error "AttributeError: text"
  | some [] => .error "IndexError: text"
  | some (v :: _) => .ok v

/-- One number/total combining step of `xx_total_correct` on an ID3
container: when both the TXXX total frame and the number frame are
present, write the combined number/total frame (replacing the number
frame) and delete the TXXX total frame. -/
def combineStep (totKey numKey : HKey) (numFid : String) (fs : Frames) :
    Except String Frames :=
  match dlookup fs totKey, dlookup fs numKey with
  | some fTot, some fNum =>
    match getText0 fNum with
    | .error e => .error e
    | .ok n =>
      match getText0 fTot with
      | .error e => .error e
      | .ok t => .ok (delall (addFrame fs (mkTagFrame numFid [n ++ '/' :: t])) totKey)
  | _, _ => .ok fs

/-- The `id3.ID3` branch of `xx_total_correct`.  (The Python function
dispatches on the runtime type of its argument; the two branches become
two Lean functions.) -/
def xx_total_correct_id3 (fs : Frames) : Except String Frames :=
  match combineStep ⟨"TXXX", some "tracktotal"⟩ ⟨"TRCK", none⟩ "TRCK" fs with
  | .error e => .error e
  | .ok fs1 => combineStep ⟨"TXXX", some "disctotal"⟩ ⟨"TPOS", none⟩ "TPOS" fs1

/-- One number/total splitting step of `xx_total_correct` on a field dict:
when the number field is present and its first value contains a slash,
split it into the number and total fields.  A two-target unpacking of
`split('/')` raises ValueError unless the split has exactly two parts, and
indexing the first value of an empty value list raises IndexError. -/
def splitStep (numKey totKey : String) (d : FieldDict) : Except String FieldDict :=
  match dlookup d numKey with
  | none => .ok d
  | some [] => .error "IndexError: value list"
  | some (v :: _) =>
    if '/' ∈ v then
      match pySplit '/' v with
      | [a, b] => .ok (dictSet (dictSet d numKey [a]) totKey [b])
      | _ => .error "ValueError: unpack"
    else .ok d

/-- The `dict` branch of `xx_total_correct`. -/
def xx_total_correct_dict (d : FieldDict) : Except String FieldDict :=
  match splitStep "tracknumber" "tracktotal" d with
  | .error e => .error e
  | .ok d1 => splitStep "discnumber" "disctotal" d1

/-- The frame-adding loop of `copy_tag_dict_to_mp3`. -/
def addTagFrames (vmap : List (String × String)) (fs : Frames) :
    FieldDict → Except String Frames
  | [] => .ok fs
  | t :: rest =>
    match get_id3_frame_gen vmap t.1 t.2 with
    | .error e => .error e
    | .ok f => addTagFrames vmap (addFrame fs f) rest

/-- `copy_tag_dict_to_mp3`, parameterised by the field-to-frame table;
`fs0` is the target file's existing tag container. -/
def copy_tag_dict_to_mp3_gen (vmap : List (String × String)) (fs0 : Frames)
    (d : FieldDict) : Except String Frames :=
  match addTagFrames vmap fs0 d with
  | .error e => .error e
  | .ok fs => xx_total_correct_id3 fs

def copy_tag_dict_to_mp3 : Frames → FieldDict → Except String Frames :=
  copy_tag_dict_to_mp3_gen vorbis_to_id3_map

/-! ### Frame to field conversion -/

/-- `id3_to_vorbis_map = {v: k for k, v in vorbis_to_id3_map.items()}`:
the dict comprehension builds the reverse table in order, a later
duplicate value overwriting an earlier one. -/
def revLookup (vmap : List (String × String)) (fid : String) : Option String :=
  dlookup (vmap.foldl (fun d p => dictSet d p.2 p.1) []) fid

/-- The per-frame outcome inside the loop of `id3_tags_as_dict`: a field
binding, a silent skip (ignored frame id), or a skip that first prints the
warning line. -/
inductive FrameOutcome
  | field (key : String) (vals : List Val)
  | skip
  | warn
deriving DecidableEq

def frameOutcome (vmap : List (String × String)) (ignoreIds : List String)
    (f : Frame) : FrameOutcome :=
  match revLookup vmap f.frameID with
  | some key =>
    match f.text with
    | some vs => .field key vs
    | none => .warn
  | none =>
    if f.frameID ∈ ignoreIds then .skip
    else
      match f.desc with
      | some key =>
        match f.text with
        | some vs => .field key vs
        | none => .warn
      | none => .warn

/-- The warning line printed when a frame is skipped formats
`id3_tags['TPE1']` and `id3_tags['TIT2']`; a missing frame makes the
f-string itself raise KeyError. -/
def warnCheck {α : Type} (tags : Frames) (cont : Except String α) :
    Except String α :=
  if (dlookup tags ⟨"TPE1", none⟩).isSome then
    if (dlookup tags ⟨"TIT2", none⟩).isSome then cont
    else .error "KeyError: TIT2"
  else .error "KeyError: TPE1"

/-- The frame loop of `id3_tags_as_dict`: `tags` is the full container
(consulted by the warning line), the last argument the frames still to be
processed. -/
def id3Fold (vmap : List (String × String)) (ignoreIds : List String)
    (tags : Frames) : FieldDict → List (HKey × Frame) → Except String FieldDict
  | acc, [] => .ok acc
  | acc, (_, f) :: rest =>
    match frameOutcome vmap ignoreIds f with
    | .field key vs => id3Fold vmap ignoreIds tags (dictSet acc key vs) rest
    | .skip => id3Fold vmap ignoreIds tags acc rest
    | .warn => warnCheck tags (id3Fold vmap ignoreIds tags acc rest)

def id3_tags_as_dict_gen (vmap : List (String × String))
    (ignoreIds : List String) (tags : Frames) : Except String FieldDict :=
  match id3Fold vmap ignoreIds tags [] tags with
  | .error e => .error e
  | .ok d => xx_total_correct_dict d

def id3_tags_as_dict : Frames → Except String FieldDict :=
  id3_tags_as_dict_gen vorbis_to_id3_map id3_frames_to_ignore

/-! ### The tree scanner `get_files_dirs`

A directory tree is modelled as a list of entries; `scandir` yields them
in that order.  Relative paths (`os.path.join` chains) are modelled as
lists of path components, so that joining a directory name onto a subtree
key is `name :: key`. -/

inductive FSEntry
  | file (name : String) (mtime : Int)
  | dir (name : String) (entries : List FSEntry)

abbrev RKey := List String

structure MusicVal where
  ext : String
  last_mod : Int
deriving DecidableEq

structure Scan3 where
  music : List (RKey × MusicVal)
  rest : List (RKey × Int)
  dirs : List (RKey × Nat)
deriving DecidableEq

/-- Python `s.lower()` (character-wise lowering suffices for the ASCII
extensions the script compares against). -/
def pyLower (s : String) : String :=
  ⟨s.toList.map Char.toLower⟩

/-- Split a character list at its last dot, into the part before the dot
and the part from the dot on; `none` when there is no dot. -/
def lastDotSplit : Val → Option (Val × Val)
  | [] => none
  | c :: rest =>
    match lastDotSplit rest with
    | some (stem, ext) => some (c :: stem, ext)
    | none => if c = '.' then some ([], '.' :: rest) else none

/-- `os.path.splitext` on a bare file name: the extension starts at the
last dot, provided an earlier character of the name is not a dot (leading
dots never start an extension). -/
def splitext (name : String) : String × String :=
  match lastDotSplit name.toList with
  | some (stem, ext) =>
    if stem.any (fun c => decide (c ≠ '.')) then (⟨stem⟩, ⟨ext⟩) else (name, "")
  | none => (name, "")

/-- The `entry.is_file()` branch of `get_files_dirs`. -/
def fileStep (acc : Scan3) (name : String) (mtime : Int) : Scan3 :=
  let (no_ext, ext) := splitext name
  if pyLower ext = ".flac" ∨ pyLower ext = ".mp3" then
    { acc with music := dictSet acc.music [no_ext] ⟨ext, mtime⟩ }
  else
    { acc with rest := dictSet acc.rest [name] mtime }

/-- The `entry.is_dir()` branch (after the ignore check): record the
directory at the current level, then merge in the recursively scanned
subtree with the directory name joined onto every key. -/
def dirStep (level : Nat) (name : String) (acc sub : Scan3) : Scan3 :=
  let withDir : Scan3 := { acc with dirs := dictSet acc.dirs [name] level }
  { music := dictUpdate withDir.music (sub.music.map fun p => (name :: p.1, p.2))
    rest := dictUpdate withDir.rest (sub.rest.map fun p => (name :: p.1, p.2))
    dirs := dictUpdate withDir.dirs (sub.dirs.map fun p => (name :: p.1, p.2)) }

/-- The scandir loop of `get_files_dirs`, parameterised by the
configurable `dirs_to_ignore` list. -/
def scanList (ignoreDirs : List String) : Nat → Scan3 → List FSEntry → Scan3
  | _, acc, [] => acc
  | level, acc, FSEntry.file name mtime :: rest =>
    scanList ignoreDirs level (fileStep acc name mtime) rest
  | level, acc, FSEntry.dir name sub :: rest =>
    if name ∈ ignoreDirs then scanList ignoreDirs level acc rest
    else
      scanList ignoreDirs level
        (dirStep level name acc (scanList ignoreDirs (level + 1) ⟨[], [], []⟩ sub)) rest

def get_files_dirs (ignoreDirs : List String) (entries : List FSEntry) : Scan3 :=
  scanList ignoreDirs 0 ⟨[], [], []⟩ entries

/-! ### The diff engine (`CompResult.__init__` and comparison methods) -/

/-- `CompResult._compare_files`: returns (files_to_copy, files_to_delete).
(`files_to_delete` is a Python set difference whose iteration order is
unspecified; it is modelled in the target's key order, which fixes the
same key multiset.) -/
def compare_files {κ : Type} [DecidableEq κ] (restLeft restRight : List (κ × Int)) :
    List κ × List κ :=
  let files_to_delete := (restRight.map Prod.fst).filter fun k =>
    (dlookup restLeft k).isNone
  let files_to_copy := (restLeft.map Prod.fst).filter fun x =>
    match dlookup restRight x with
    | some w => decide (¬dlookup restLeft x = some w)
    | none => true
  (files_to_copy, files_to_delete)

/-- `CompResult._compare_music`: returns
(music_leftonly, music_changed, music_to_delete). -/
def compare_music {κ : Type} [DecidableEq κ]
    (musicLeft musicRight : List (κ × MusicVal)) :
    List κ × List κ × List (κ × MusicVal) :=
  let music_to_delete := musicRight.filter fun p => (dlookup musicLeft p.1).isNone
  let music_leftonly := (musicLeft.map Prod.fst).filter fun x =>
    (dlookup musicRight x).isNone
  let music_changed := (musicLeft.map Prod.fst).filter fun x =>
    match dlookup musicRight x, dlookup musicLeft x with
    | some r, some l => decide (l.last_mod > r.last_mod)
    | _, _ => false
  (music_leftonly, music_changed, music_to_delete)

/-- The action collections computed by `CompResult.__init__`. -/
structure CompData where
  dirs_to_copy : List (RKey × Nat)
  dirs_to_delete : List (RKey × Nat)
  rest_to_copy : List RKey
  rest_to_delete : List RKey
  music_leftonly : List RKey
  music_changed : List RKey
  music_to_delete : List (RKey × MusicVal)

def mkCompResult (leftScan rightScan : Scan3) : CompData :=
  let dirs_to_copy := leftScan.dirs.filter fun p => (dlookup rightScan.dirs p.1).isNone
  let dirs_to_delete := rightScan.dirs.filter fun p => (dlookup leftScan.dirs p.1).isNone
  let cf := compare_files leftScan.rest rightScan.rest
  let cm := compare_music leftScan.music rightScan.music
  ⟨dirs_to_copy, dirs_to_delete, cf.1, cf.2, cm.1, cm.2.1, cm.2.2⟩

/-! ### Apply: `CompResult._copy_music_changed` decision and
`CompResult.synchronise` ordering -/

inductive MusicAction
  | tagCopy
  | encode
  | copyFile
deriving DecidableEq

/-- The per-key decision of `_copy_music_changed`, given the extensions of
the two sides and the tag dictionaries read from them: raise on an
unexpected source extension, assert the target is an mp3, then tag-copy on
differing tags (`tags_left != tags_right` is Python dict inequality, so
insertion order across keys is irrelevant), else re-encode a flac source
and plain-copy an mp3 one. -/
def copy_music_changed_step (extLeft extRight : String)
    (tagsLeft tagsRight : FieldDict) : Except String MusicAction :=
  if pyLower extLeft = ".flac" ∨ pyLower extLeft = ".mp3" then
    if extRight = ".mp3" then
      if pyDictEq tagsLeft tagsRight = false then .ok .tagCopy
      else if pyLower extLeft = ".flac" then .ok .encode
      else .ok .copyFile
    else .error "AssertionError: Target file is not .mp3"
  else .error "Exception: What is this thing?"

/-- The filesystem actions `synchronise` performs, one event per loop
iteration of its seven stages. -/
inductive Event
  | mkdir (k : RKey)
  | copyOther (k : RKey)
  | musicChanged (k : RKey)
  | musicNew (k : RKey)
  | delMusic (k : RKey)
  | delOther (k : RKey)
  | rmdir (k : RKey)
deriving DecidableEq

/-- The action trace of `CompResult.synchronise`: its seven methods in
their call order, each iterating its collection in order
(`_remove_dirs` iterates `reversed(dirs_aslist)`). -/
def synchronise_trace (c : CompData) : List Event :=
  c.dirs_to_copy.map (fun p => Event.mkdir p.1)
    ++ c.rest_to_copy.map Event.copyOther
    ++ c.music_changed.map Event.musicChanged
    ++ c.music_leftonly.map Event.musicNew
    ++ c.music_to_delete.map (fun p => Event.delMusic p.1)
    ++ c.rest_to_delete.map Event.delOther
    ++ ((c.dirs_to_delete.map Prod.fst).reverse.map Event.rmdir)

/-- Stage number of an event in the fixed order of `synchronise`. -/
def stageOf : Event → Nat
  | .mkdir _ => 0
  | .copyOther _ => 1
  | .musicChanged _ => 2
  | .musicNew _ => 3
  | .delMusic _ => 4
  | .delOther _ => 5
  | .rmdir _ => 6

def isRmdir : Event → Bool
  | .rmdir _ => true
  | _ => false

def isFileDelete : Event → Bool
  | .delMusic _ => true
  | .delOther _ => true
  | _ => false

def rmdirKey : Event → Option RKey
  | .rmdir k => some k
  | _ => none

/-- `os.rmdir` modelled on the list of existing paths: it fails on a
missing path and on a non-empty directory (one with a strict extension
among the existing paths), and removes the path otherwise. -/
def rmdirStep (state : List RKey) (k : RKey) : Except String (List RKey) :=
  if k ∈ state then
    if state.any (fun e => decide (k <+: e) && decide (e ≠ k)) then
      .error "OSError: directory not empty"
    else .ok (state.erase k)
  else .error "FileNotFoundError"

/-- `CompResult._remove_dirs` run against a filesystem state: the dirs to
delete in reverse order, each removal sequenced through `os.rmdir` with no
exception handling, so the first failure aborts the run. -/
def remove_dirs_exec (c : CompData) (state : List RKey) :
    Except String (List RKey) :=
  ((c.dirs_to_delete.map Prod.fst).reverse).foldlM rmdirStep state

/-! ## Structure of the field to frame conversion (used by C4 and C5) -/

/-- The frame `get_id3_frame` produces for a field under the configured
table. -/
def fieldFrame (name : String) (vs : List Val) : Frame :=
  match dlookup vorbis_to_id3_map name with
  | some fid => mkTagFrame fid vs
  | none => ⟨"TXXX", some name, some vs⟩

/-- The container key that frame is stored under. -/
def fieldKey (name : String) : HKey :=
  match dlookup vorbis_to_id3_map name with
  | some fid => ⟨fid, none⟩
  | none => ⟨"TXXX", some name⟩

/-- The container `copy_tag_dict_to_mp3` builds from a field dict before
the number/total correction, when it starts from an empty container. -/
def convFrames (d : FieldDict) : Frames :=
  d.map fun p => (fieldKey p.1, fieldFrame p.1 p.2)

/-- Remove every directory entry named in the ignore list, with its whole
subtree, from a directory tree. -/
def pruneList (ignoreDirs : List String) : List FSEntry → List FSEntry
  | [] => []
  | FSEntry.file name mtime :: rest =>
    FSEntry.file name mtime :: pruneList ignoreDirs rest
  | FSEntry.dir name sub :: rest =>
    if name ∈ ignoreDirs then pruneList ignoreDirs rest
    else FSEntry.dir name (pruneList ignoreDirs sub) :: pruneList ignoreDirs rest

def entryName : FSEntry → String
  | .file n _ => n
  | .dir n _ => n

/-- Well-formed directory listing: entry names unique per directory,
recursively (as delivered by a real scandir). -/
def wfTree : List FSEntry → Bool
  | [] => true
  | FSEntry.file name _ :: rest =>
    decide (name ∉ rest.map entryName) && wfTree rest
  | FSEntry.dir name sub :: rest =>
    decide (name ∉ rest.map entryName) && wfTree sub && wfTree rest

/-- The directory map the scanner discovers, in discovery order: each
non-ignored directory followed by its subtree's directories. -/
def dirsOf (ignoreDirs : List String) : Nat → List FSEntry → List (RKey × Nat)
  | _, [] => []
  | lvl, FSEntry.file _ _ :: rest => dirsOf ignoreDirs lvl rest
  | lvl, FSEntry.dir name sub :: rest =>
    if name ∈ ignoreDirs then dirsOf ignoreDirs lvl rest
    else ([name], lvl) :: ((dirsOf ignoreDirs (lvl + 1) sub).map
      fun p => (name :: p.1, p.2)) ++ dirsOf ignoreDirs lvl rest

/-! ### Library lemmas about the dict and split models -/

section DictLemmas

variable {κ α : Type} [DecidableEq κ]

theorem dlookup_dictSet_self (d : List (κ × α)) (k : κ) (v : α) :
    dlookup (dictSet d k v) k = some v := by
  induction d with
  | nil => simp [dictSet, dlookup]
  | cons p rest ih =>
    obtain ⟨k', v'⟩ := p
    by_cases h : k' = k <;> simp [dictSet, dlookup, h, ih]

theorem dlookup_dictSet_ne (d : List (κ × α)) {k k' : κ} (v : α) (h : k' ≠ k) :
    dlookup (dictSet d k v) k' = dlookup d k' := by
  have h' : ¬k = k' := fun hh => h hh.symm
  induction d with
  | nil => simp [dictSet, dlookup, h']
  | cons p rest ih =>
    obtain ⟨k'', v''⟩ := p
    by_cases h2 : k'' = k
    · subst h2
      simp [dictSet, dlookup, h']
    · by_cases h3 : k'' = k' <;> simp [dictSet, dlookup, h2, h3, ih, h]

theorem dlookup_isSome_iff_mem (d : List (κ × α)) (k : κ) :
    (dlookup d k).isSome ↔ k ∈ d.map Prod.fst := by
  induction d with
  | nil => simp [dlookup]
  | cons p rest ih =>
    obtain ⟨k', v⟩ := p
    by_cases h : k' = k
    · subst h
      simp [dlookup]
    · have h' : ¬k = k' := fun hh => h hh.symm
      simp [dlookup, h, h', ih]

theorem dlookup_eq_none_iff_not_mem (d : List (κ × α)) (k : κ) :
    dlookup d k = none ↔ k ∉ d.map Prod.fst := by
  rw [← dlookup_isSome_iff_mem]
  cases dlookup d k <;> simp

theorem dlookup_mem (d : List (κ × α)) {k : κ} {v : α} (h : dlookup d k = some v) :
    (k, v) ∈ d := by
  induction d with
  | nil => simp [dlookup] at h
  | cons p rest ih =>
    obtain ⟨k', v'⟩ := p
    by_cases h2 : k' = k
    · subst h2
      simp [dlookup] at h
      simp [h]
    · simp [dlookup, h2] at h
      exact List.mem_cons_of_mem _ (ih h)

theorem dictSet_of_not_mem (d : List (κ × α)) {k : κ} (v : α)
    (h : k ∉ d.map Prod.fst) : dictSet d k v = d ++ [(k, v)] := by
  induction d with
  | nil => simp [dictSet]
  | cons p rest ih =>
    obtain ⟨k', v'⟩ := p
    simp only [List.map_cons, List.mem_cons, not_or] at h
    have h1 : ¬k' = k := fun hh => h.1 hh.symm
    simp [dictSet, h1, ih h.2]

theorem dictSet_keys_of_mem (d : List (κ × α)) {k : κ} (v : α)
    (h : k ∈ d.map Prod.fst) : (dictSet d k v).map Prod.fst = d.map Prod.fst := by
  induction d with
  | nil => simp at h
  | cons p rest ih =>
    obtain ⟨k', v'⟩ := p
    by_cases h2 : k' = k
    · simp [dictSet, h2]
    · simp only [List.map_cons, List.mem_cons] at h
      rcases h with h | h
      · exact absurd h.symm h2
      · simp [dictSet, h2, ih h]

theorem dictUpdate_of_fresh (d1 d2 : List (κ × α))
    (hdisj : ∀ k ∈ d2.map Prod.fst, k ∉ d1.map Prod.fst)
    (hnd : (d2.map Prod.fst).Nodup) : dictUpdate d1 d2 = d1 ++ d2 := by
  induction d2 generalizing d1 with
  | nil => simp [dictUpdate]
  | cons p rest ih =>
    obtain ⟨k, v⟩ := p
    have hk : k ∉ d1.map Prod.fst := hdisj k (by simp)
    have step : dictSet d1 k v = d1 ++ [(k, v)] := dictSet_of_not_mem d1 v hk
    simp only [List.map_cons, List.nodup_cons] at hnd
    have : dictUpdate (d1 ++ [(k, v)]) rest = (d1 ++ [(k, v)]) ++ rest := by
      refine ih (d1 ++ [(k, v)]) ?_ hnd.2
      intro k' hk'
      simp only [List.map_append, List.mem_append]
      push_neg
      refine ⟨hdisj k' (by simp [hk']), ?_⟩
      simp only [List.map_cons, List.map_nil, List.mem_singleton]
      intro hcon
      subst hcon
      exact hnd.1 hk'
    calc dictUpdate d1 ((k, v) :: rest)
        = dictUpdate (dictSet d1 k v) rest := by simp [dictUpdate, List.foldl_cons]
      _ = dictUpdate (d1 ++ [(k, v)]) rest := by rw [step]
      _ = (d1 ++ [(k, v)]) ++ rest := this
      _ = d1 ++ (k, v) :: rest := by simp

end DictLemmas

section PySplitLemmas

theorem pySplit_ne_nil (sep : Char) (s : Val) : pySplit sep s ≠ [] := by
  cases s with
  | nil => simp [pySplit]
  | cons c rest =>
    simp only [pySplit]
    rcases h : pySplit sep rest with _ | ⟨h1, t1⟩ <;> simp
    by_cases hc : c = sep <;> simp [hc]

theorem pySplit_of_not_mem {sep : Char} {s : Val} (h : sep ∉ s) :
    pySplit sep s = [s] := by
  induction s with
  | nil => simp [pySplit]
  | cons c rest ih =>
    simp only [List.mem_cons, not_or] at h
    have hc : ¬c = sep := fun hh => h.1 hh.symm
    simp only [pySplit, ih h.2]
    simp [hc]

theorem pySplit_append {sep : Char} {a : Val} (b : Val) (h : sep ∉ a) :
    pySplit sep (a ++ sep :: b) = a :: pySplit sep b := by
  induction a with
  | nil =>
    simp only [List.nil_append, pySplit]
    rcases hb : pySplit sep b with _ | ⟨h1, t1⟩
    · exact absurd hb (pySplit_ne_nil sep b)
    · simp
  | cons c rest ih =>
    simp only [List.mem_cons, not_or] at h
    have hc : ¬c = sep := fun hh => h.1 hh.symm
    simp only [List.cons_append, pySplit, List.append_eq]
    rw [ih h.2]
    simp [hc]

theorem length_pySplit (sep : Char) (s : Val) :
    (pySplit sep s).length = s.count sep + 1 := by
  induction s with
  | nil => simp [pySplit]
  | cons c rest ih =>
    simp only [pySplit]
    rcases h : pySplit sep rest with _ | ⟨h1, t1⟩
    · exact absurd h (pySplit_ne_nil sep rest)
    · by_cases hc : c = sep
      · subst hc
        simp [h] at ih
        simp [h, List.count_cons, ih]
      · simp [h] at ih
        simp [h, List.count_cons, hc, ih]

end PySplitLemmas

/-! ## Claim C1: the per-key decision on `audioChanged` keys -/

/-- Python dict equality is mapping equality: the same lookup result for
every key, regardless of insertion order across keys. -/
theorem pyDictEq_iff {κ α : Type} [DecidableEq κ] [DecidableEq α]
    (d1 d2 : List (κ × α)) :
    pyDictEq d1 d2 = true ↔ ∀ k, dlookup d1 k = dlookup d2 k := by
  rw [pyDictEq, Bool.and_eq_true, List.all_eq_true, List.all_eq_true]
  constructor
  · rintro ⟨h1, h2⟩ k
    by_cases hk1 : k ∈ d1.map Prod.fst
    · obtain ⟨p, hp, rfl⟩ := List.mem_map.mp hk1
      simpa using h1 p hp
    · by_cases hk2 : k ∈ d2.map Prod.fst
      · obtain ⟨p, hp, rfl⟩ := List.mem_map.mp hk2
        simpa using h2 p hp
      · rw [(dlookup_eq_none_iff_not_mem _ _).mpr hk1,
          (dlookup_eq_none_iff_not_mem _ _).mpr hk2]
  · intro h
    exact ⟨fun p _ => by simpa using h p.1, fun p _ => by simpa using h p.1⟩

/-- C1: for a key in audioChanged (source extension flac or mp3, target
asserted to be mp3), `_copy_music_changed` performs exactly a tag copy
when the two tag dicts are not canonically equal (the same
key-to-value-list mapping, insertion order across keys irrelevant), and
otherwise re-encodes a flac source and plain-copies an mp3 source; the
two branches are mutually exclusive. -/
theorem C1_music_changed_decision (extLeft : String) (tagsLeft tagsRight : FieldDict)
    (hL : pyLower extLeft = ".flac" ∨ pyLower extLeft = ".mp3") :
    (¬(∀ k, dlookup tagsLeft k = dlookup tagsRight k) →
      copy_music_changed_step extLeft ".mp3" tagsLeft tagsRight = .ok .tagCopy) ∧
    ((∀ k, dlookup tagsLeft k = dlookup tagsRight k) →
      copy_music_changed_step extLeft ".mp3" tagsLeft tagsRight =
        .ok (if pyLower extLeft = ".flac" then .encode else .copyFile)) := by
  constructor
  · intro hne
    have hb : pyDictEq tagsLeft tagsRight = false := by
      cases hb : pyDictEq tagsLeft tagsRight with
      | false => rfl
      | true => exact absurd ((pyDictEq_iff _ _).mp hb) hne
    simp [copy_music_changed_step, hL, hb]
  · intro heq
    have hb : pyDictEq tagsLeft tagsRight = true := (pyDictEq_iff _ _).mpr heq
    rcases hL with hf | hm
    · simp [copy_music_changed_step, hf, hb]
    · by_cases hf : pyLower extLeft = ".flac"
      · simp [copy_music_changed_step, hf, hb]
      · simp [copy_music_changed_step, hm, hf, hb]

theorem C1_music_changed_decision_witness :
    (¬(∀ k, dlookup ([("artist", [['a']])] : FieldDict) k =
      dlookup ([] : FieldDict) k)) ∧
    copy_music_changed_step ".flac" ".mp3" [("artist", [['a']])] [] =
      .ok .tagCopy ∧
    copy_music_changed_step ".flac" ".mp3"
      [("artist", [['a']]), ("title", [['t']])]
      [("title", [['t']]), ("artist", [['a']])] = .ok .encode := by
  have hne : ¬(∀ k, dlookup ([("artist", [['a']])] : FieldDict) k =
      dlookup ([] : FieldDict) k) :=
    fun hall => absurd (hall "artist") (by decide)
  have hperm : ∀ k,
      dlookup ([("artist", [['a']]), ("title", [['t']])] : FieldDict) k =
      dlookup ([("title", [['t']]), ("artist", [['a']])] : FieldDict) k :=
    (pyDictEq_iff _ _).mp (by decide)
  refine ⟨hne,
    (C1_music_changed_decision ".flac" [("artist", [['a']])] []
      (by decide)).1 hne, ?_⟩
  have h2 := (C1_music_changed_decision ".flac"
    [("artist", [['a']]), ("title", [['t']])]
    [("title", [['t']]), ("artist", [['a']])] (by decide)).2 hperm
  rw [if_pos (show pyLower ".flac" = ".flac" by decide)] at h2
  exact h2

/-! ## Claim C2: the decision for "other" files -/

/-- C2: a key of the source's other-files map is copied iff it is absent
from the target map or present with a different modTime (a difference in
either direction), and a key of the target map absent from the source map
is deleted. -/
theorem C2_other_copy_delete {κ : Type} [DecidableEq κ]
    (restLeft restRight : List (κ × Int)) (k : κ) :
    (k ∈ (compare_files restLeft restRight).1 ↔
      (dlookup restLeft k).isSome ∧
        (dlookup restRight k = none ∨ dlookup restRight k ≠ dlookup restLeft k)) ∧
    (k ∈ (compare_files restLeft restRight).2 ↔
      (dlookup restRight k).isSome ∧ dlookup restLeft k = none) := by
  constructor
  · simp only [compare_files, List.mem_filter, ← dlookup_isSome_iff_mem]
    cases hR : dlookup restRight k with
    | none => simp
    | some w =>
      cases hL : dlookup restLeft k with
      | none => simp
      | some v =>
        by_cases hvw : v = w
        · subst hvw
          simp
        · have hwv : ¬w = v := fun hh => hvw hh.symm
          simp [hvw, hwv]
  · simp only [compare_files, List.mem_filter, ← dlookup_isSome_iff_mem]
    cases hL : dlookup restLeft k <;> simp

/-! ## Claim C3: the decision for audio files present on both sides -/

/-- C3: a key present in both audio maps is in music_changed iff the
source modTime is strictly greater than the target's; with a
newer-or-equal target the key is in none of the three audio collections. -/
theorem C3_audio_changed_strict {κ : Type} [DecidableEq κ]
    (musicLeft musicRight : List (κ × MusicVal)) (k : κ) :
    (k ∈ (compare_music musicLeft musicRight).2.1 ↔
      ∃ l r, dlookup musicLeft k = some l ∧ dlookup musicRight k = some r ∧
        r.last_mod < l.last_mod) ∧
    (∀ l r, dlookup musicLeft k = some l → dlookup musicRight k = some r →
      l.last_mod ≤ r.last_mod →
      k ∉ (compare_music musicLeft musicRight).2.1 ∧
      k ∉ (compare_music musicLeft musicRight).1 ∧
      k ∉ (compare_music musicLeft musicRight).2.2.map Prod.fst) := by
  constructor
  · simp only [compare_music, List.mem_filter, ← dlookup_isSome_iff_mem]
    cases hR : dlookup musicRight k with
    | none => simp
    | some r =>
      cases hL : dlookup musicLeft k with
      | none => simp
      | some l => simp [gt_iff_lt]
  · intro l r hL hR hle
    refine ⟨?_, ?_, ?_⟩
    · simp only [compare_music, List.mem_filter]
      intro hcon
      rw [hR, hL] at hcon
      have := hcon.2
      simp at this
      exact absurd (lt_of_lt_of_le this hle) (lt_irrefl _)
    · simp only [compare_music, List.mem_filter]
      intro hcon
      rw [hR] at hcon
      simp at hcon
    · intro hcon
      simp only [compare_music] at hcon
      obtain ⟨p, hp, hpk⟩ := List.mem_map.mp hcon
      have h2 := (List.mem_filter.mp hp).2
      rw [hpk, hL] at h2
      simp at h2

theorem splitStep_error_of_slashes {numKey totKey : String} {d : FieldDict}
    {v : Val} {vs : List Val} (hl : dlookup d numKey = some (v :: vs))
    (hc : 2 ≤ v.count '/') :
    splitStep numKey totKey d = .error "ValueError: unpack" := by
  have hmem : '/' ∈ v := List.count_pos_iff.mp (lt_of_lt_of_le (by norm_num) hc)
  have hlen : (pySplit '/' v).length = v.count '/' + 1 := length_pySplit _ _
  simp only [splitStep, hl]
  rw [if_pos hmem]
  rcases hsp : pySplit '/' v with _ | ⟨a, _ | ⟨b, _ | ⟨c, t⟩⟩⟩
  · rfl
  · rfl
  · rw [hsp] at hlen
    simp at hlen
    omega
  · rfl

theorem splitStep_ok_dlookup {numKey totKey key : String} {d d' : FieldDict}
    (h : splitStep numKey totKey d = .ok d') (h1 : key ≠ numKey)
    (h2 : key ≠ totKey) : dlookup d' key = dlookup d key := by
  rcases hl : dlookup d numKey with _ | ⟨_ | ⟨v, vs⟩⟩ <;>
    simp only [splitStep, hl] at h
  · simp only [Except.ok.injEq] at h
    rw [h]
  · exact absurd h (by simp)
  · by_cases hmem : '/' ∈ v
    · rw [if_pos hmem] at h
      rcases hsp : pySplit '/' v with _ | ⟨a, _ | ⟨b, _ | ⟨c, t⟩⟩⟩ <;>
        rw [hsp] at h <;> simp only [Except.ok.injEq] at h <;> try contradiction
      rw [← h, dlookup_dictSet_ne _ _ h2, dlookup_dictSet_ne _ _ h1]
    · rw [if_neg hmem] at h
      simp only [Except.ok.injEq] at h
      rw [h]

/-! ## Claim C10: totality of the number/total split -/

/-- C10: the dict branch of `xx_total_correct` raises an unhandled error
(instead of returning a field dict) whenever the first tracknumber or
discnumber value contains two or more slash characters. -/
theorem C10_multi_slash_aborts (d : FieldDict)
    (h : (∃ v vs, dlookup d "tracknumber" = some (v :: vs) ∧ 2 ≤ v.count '/') ∨
         (∃ v vs, dlookup d "discnumber" = some (v :: vs) ∧ 2 ≤ v.count '/')) :
    ∃ e, xx_total_correct_dict d = .error e := by
  rcases h with ⟨v, vs, hl, hc⟩ | ⟨v, vs, hl, hc⟩
  · exact ⟨"ValueError: unpack",
      by simp only [xx_total_correct_dict, splitStep_error_of_slashes hl hc]⟩
  · rcases hts : splitStep "tracknumber" "tracktotal" d with e | d'
    · exact ⟨e, by simp only [xx_total_correct_dict, hts]⟩
    · have hdn : dlookup d' "discnumber" = some (v :: vs) := by
        rw [splitStep_ok_dlookup hts (by decide) (by decide), hl]
      exact ⟨"ValueError: unpack", by simp only [xx_total_correct_dict, hts,
        splitStep_error_of_slashes hdn hc]⟩

theorem C10_multi_slash_aborts_witness :
    (∃ v vs, dlookup [(("tracknumber" : String), [['1', '/', '2', '/', '3']])]
        "tracknumber" = some (v :: vs) ∧ 2 ≤ v.count '/') ∧
    ∃ e, xx_total_correct_dict [("tracknumber", [['1', '/', '2', '/', '3']])] =
      .error e := by
  refine ⟨⟨['1', '/', '2', '/', '3'], [], by decide, by decide⟩, ?_⟩
  exact C10_multi_slash_aborts [("tracknumber", [['1', '/', '2', '/', '3']])]
    (Or.inl ⟨['1', '/', '2', '/', '3'], [], by decide, by decide⟩)

theorem C3_audio_changed_strict_witness :
    (dlookup [(("k" : String), (⟨".mp3", 1⟩ : MusicVal))] "k" = some ⟨".mp3", 1⟩) ∧
    ((1 : Int) ≤ 2) ∧
    ("k" ∉ (compare_music [("k", (⟨".mp3", 1⟩ : MusicVal))]
        [("k", (⟨".mp3", 2⟩ : MusicVal))]).2.1 ∧
      "k" ∉ (compare_music [("k", (⟨".mp3", 1⟩ : MusicVal))]
        [("k", (⟨".mp3", 2⟩ : MusicVal))]).1 ∧
      "k" ∉ (compare_music [("k", (⟨".mp3", 1⟩ : MusicVal))]
        [("k", (⟨".mp3", 2⟩ : MusicVal))]).2.2.map Prod.fst) := by
  refine ⟨by decide, by decide, ?_⟩
  exact (C3_audio_changed_strict [("k", ⟨".mp3", 1⟩)] [("k", ⟨".mp3", 2⟩)] "k").2
    ⟨".mp3", 1⟩ ⟨".mp3", 2⟩ (by decide) (by decide) (by decide)

/-! ## Claim C6: ignored frame ids contribute nothing -/

theorem frameOutcome_skip_of_ignored {f : Frame}
    (h : f.frameID ∈ id3_frames_to_ignore) :
    frameOutcome vorbis_to_id3_map id3_frames_to_ignore f = .skip := by
  have hfid : f.frameID = "TSSE" := by
    simpa [id3_frames_to_ignore] using h
  have hrev : revLookup vorbis_to_id3_map "TSSE" = none := by decide
  simp [frameOutcome, hfid, hrev, id3_frames_to_ignore]

/-- C6: under the configured tables, the frame loop of
`id3_tags_as_dict` computes the same field dict whether or not the frames
whose id lies in `id3_frames_to_ignore` are present: no key or value of
the result originates from an ignored frame; consequently the whole
conversion agrees with the conversion of the ignored-frames-free
container processed against the same file. -/
theorem C6_ignored_frames_dropped (tags l : Frames) (acc : FieldDict) :
    (id3Fold vorbis_to_id3_map id3_frames_to_ignore tags acc
        (l.filter fun p => !(id3_frames_to_ignore.contains p.2.frameID)) =
      id3Fold vorbis_to_id3_map id3_frames_to_ignore tags acc l) ∧
    (id3_tags_as_dict tags =
      match id3Fold vorbis_to_id3_map id3_frames_to_ignore tags []
          (tags.filter fun p => !(id3_frames_to_ignore.contains p.2.frameID)) with
      | .error e => .error e
      | .ok d => xx_total_correct_dict d) := by
  have main : ∀ (l : Frames) (acc : FieldDict),
      id3Fold vorbis_to_id3_map id3_frames_to_ignore tags acc
        (l.filter fun p => !(id3_frames_to_ignore.contains p.2.frameID)) =
      id3Fold vorbis_to_id3_map id3_frames_to_ignore tags acc l := by
    intro l
    induction l with
    | nil => intro acc; rfl
    | cons p rest ih =>
      intro acc
      obtain ⟨k, f⟩ := p
      by_cases hig : f.frameID ∈ id3_frames_to_ignore
      · have hskip := frameOutcome_skip_of_ignored hig
        have hcontains : id3_frames_to_ignore.contains f.frameID = true := by
          exact List.elem_eq_true_of_mem hig
        simp only [List.filter_cons, hcontains, Bool.not_true, if_neg,
          Bool.false_eq_true, not_false_eq_true, id3Fold, hskip]
        exact ih acc
      · have hcontains : id3_frames_to_ignore.contains f.frameID = false := by
          simpa using hig
        simp only [List.filter_cons, hcontains, Bool.not_false, if_pos, id3Fold]
        cases houtcome : frameOutcome vorbis_to_id3_map id3_frames_to_ignore f with
        | field key vs => exact ih (dictSet acc key vs)
        | skip => exact ih acc
        | warn => rw [ih acc]
  refine ⟨main l acc, ?_⟩
  rw [id3_tags_as_dict, id3_tags_as_dict_gen, main tags []]

/-! ## Claim C9: error handling in the tag layer

The recoverable-skip half of the claim fails on the code: the warning
line formats `id3_tags['TPE1']` and `id3_tags['TIT2']`, so on a file
whose container lacks either frame the skip path itself raises KeyError
and aborts instead of continuing. -/

/-- C9: evaluating the conversion at the failing input: a container
holding a single malformed frame (no desc and no text attribute, e.g. an
APIC picture frame) and no TPE1/TIT2 frames makes `id3_tags_as_dict`
raise KeyError instead of skipping the frame; with TPE1 and TIT2 present
the same malformed frame is skipped and the rest is converted. -/
theorem C9_malformed_frame_warning_crash :
    id3_tags_as_dict [(⟨"APIC", none⟩, ⟨"APIC", none, none⟩)] =
      .error "KeyError: TPE1" ∧
    id3_tags_as_dict [(⟨"TPE1", none⟩, ⟨"TPE1", none, some [['a']]⟩),
        (⟨"TIT2", none⟩, ⟨"TIT2", none, some [['t']]⟩),
        (⟨"APIC", none⟩, ⟨"APIC", none, none⟩)] =
      .ok [("artist", [['a']]), ("title", [['t']])] :=
  ⟨rfl, rfl⟩

theorem vorbis_value_valid {a fa : String} (ha : (a, fa) ∈ vorbis_to_id3_map) :
    fa ∈ validFrameIds := by
  have hall : vorbis_to_id3_map.all (fun p => validFrameIds.contains p.2) = true := by
    decide
  simpa using List.all_eq_true.mp hall _ ha

theorem vorbis_value_ne_txxx {a fa : String} (ha : (a, fa) ∈ vorbis_to_id3_map) :
    fa ≠ "TXXX" := by
  have hall : vorbis_to_id3_map.all (fun p => !(p.2 == "TXXX")) = true := by decide
  simpa using List.all_eq_true.mp hall _ ha

theorem vorbis_value_inj {a b fa fb : String} (ha : (a, fa) ∈ vorbis_to_id3_map)
    (hb : (b, fb) ∈ vorbis_to_id3_map) (hf : fa = fb) : a = b := by
  have hall : vorbis_to_id3_map.all (fun p => vorbis_to_id3_map.all fun q =>
      !(p.2 == q.2) || (p.1 == q.1)) = true := by decide
  have h2 := List.all_eq_true.mp (List.all_eq_true.mp hall _ ha) _ hb
  simp [hf] at h2
  exact h2

theorem revLookup_of_dlookup {name fid : String}
    (h : dlookup vorbis_to_id3_map name = some fid) :
    revLookup vorbis_to_id3_map fid = some name := by
  have hall : vorbis_to_id3_map.all
      (fun p => revLookup vorbis_to_id3_map p.2 == some p.1) = true := by decide
  simpa using List.all_eq_true.mp hall _ (dlookup_mem _ h)

theorem get_id3_frame_ok (name : String) (vs : List Val) :
    get_id3_frame name vs = .ok (fieldFrame name vs) := by
  cases hl : dlookup vorbis_to_id3_map name with
  | some fid =>
    have hv : fid ∈ validFrameIds := vorbis_value_valid (dlookup_mem _ hl)
    simp [get_id3_frame, get_id3_frame_gen, fieldFrame, hl, hv]
  | none => simp [get_id3_frame, get_id3_frame_gen, fieldFrame, hl]

theorem hashKey_fieldFrame (name : String) (vs : List Val) :
    hashKey (fieldFrame name vs) = fieldKey name := by
  cases hl : dlookup vorbis_to_id3_map name with
  | some fid =>
    have hx : fid ≠ "TXXX" := vorbis_value_ne_txxx (dlookup_mem _ hl)
    simp [fieldFrame, fieldKey, hashKey, mkTagFrame, hl, hx]
  | none => simp [fieldFrame, fieldKey, hashKey, hl]

theorem fieldKey_inj {a b : String} (h : fieldKey a = fieldKey b) : a = b := by
  rw [fieldKey, fieldKey] at h
  cases ha : dlookup vorbis_to_id3_map a with
  | some fa =>
    cases hb : dlookup vorbis_to_id3_map b with
    | some fb =>
      rw [ha, hb] at h
      simp only [HKey.mk.injEq] at h
      exact vorbis_value_inj (dlookup_mem _ ha) (dlookup_mem _ hb) h.1
    | none =>
      rw [ha, hb] at h
      simp at h
  | none =>
    cases hb : dlookup vorbis_to_id3_map b with
    | some fb =>
      rw [ha, hb] at h
      simp at h
    | none =>
      rw [ha, hb] at h
      simpa using h

theorem addTagFrames_eq (d : FieldDict) (fs0 : Frames)
    (hfresh : ∀ p ∈ d, fieldKey p.1 ∉ fs0.map Prod.fst)
    (hnd : (d.map Prod.fst).Nodup) :
    addTagFrames vorbis_to_id3_map fs0 d = .ok (fs0 ++ convFrames d) := by
  induction d generalizing fs0 with
  | nil => simp [addTagFrames, convFrames]
  | cons p rest ih =>
    obtain ⟨name, vs⟩ := p
    have hok := get_id3_frame_ok name vs
    rw [get_id3_frame] at hok
    simp only [addTagFrames, hok]
    have hstep : addFrame fs0 (fieldFrame name vs)
        = fs0 ++ [(fieldKey name, fieldFrame name vs)] := by
      rw [addFrame, hashKey_fieldFrame]
      exact dictSet_of_not_mem fs0 _ (hfresh (name, vs) (by simp))
    rw [hstep]
    simp only [List.map_cons, List.nodup_cons] at hnd
    have : addTagFrames vorbis_to_id3_map
        (fs0 ++ [(fieldKey name, fieldFrame name vs)]) rest =
        .ok ((fs0 ++ [(fieldKey name, fieldFrame name vs)]) ++ convFrames rest) := by
      refine ih _ ?_ hnd.2
      intro q hq
      simp only [List.map_append, List.mem_append, List.map_cons, List.map_nil,
        List.mem_singleton, not_or]
      refine ⟨hfresh q (by simp [hq]), fun hcon => ?_⟩
      exact hnd.1 (fieldKey_inj hcon ▸ (List.mem_map_of_mem Prod.fst hq))
    rw [this]
    simp [convFrames]


theorem dlookup_filter_ne {κ α : Type} [DecidableEq κ] (d : List (κ × α))
    {name k : κ} (h : k ≠ name) :
    dlookup (d.filter fun p => decide (p.1 ≠ name)) k = dlookup d k := by
  induction d with
  | nil => rfl
  | cons p rest ih =>
    obtain ⟨a, va⟩ := p
    simp only [ne_eq, decide_not] at ih ⊢
    by_cases ha : a = name
    · subst ha
      have hak : ¬a = k := fun hh => h hh.symm
      simp [dlookup, List.filter_cons, ih, hak]
    · by_cases hak : a = k <;> simp [dlookup, List.filter_cons, ha, hak, ih, h]

theorem dlookup_filter_self {κ α : Type} [DecidableEq κ] (d : List (κ × α))
    (name : κ) :
    dlookup (d.filter fun p => decide (p.1 ≠ name)) name = none := by
  induction d with
  | nil => rfl
  | cons p rest ih =>
    obtain ⟨a, va⟩ := p
    simp only [ne_eq, decide_not] at ih ⊢
    by_cases ha : a = name <;> simp [dlookup, List.filter_cons, ha, ih]

theorem mem_keys_dictSet {κ α : Type} [DecidableEq κ] (d : List (κ × α))
    (k a : κ) (v : α) :
    a ∈ (dictSet d k v).map Prod.fst ↔ a ∈ d.map Prod.fst ∨ a = k := by
  by_cases h : k ∈ d.map Prod.fst
  · rw [dictSet_keys_of_mem d v h]
    constructor
    · exact Or.inl
    · rintro (ha | rfl)
      · exact ha
      · exact h
  · rw [dictSet_of_not_mem d v h]
    simp

theorem dictSet_keys_nodup {κ α : Type} [DecidableEq κ] (d : List (κ × α))
    (k : κ) (v : α) (h : (d.map Prod.fst).Nodup) :
    ((dictSet d k v).map Prod.fst).Nodup := by
  by_cases hm : k ∈ d.map Prod.fst
  · rw [dictSet_keys_of_mem d v hm]
    exact h
  · rw [dictSet_of_not_mem d v hm]
    simp only [List.map_append, List.map_cons, List.map_nil]
    rw [List.nodup_append]
    refine ⟨h, by simp, ?_⟩
    intro a ha hb
    simp only [List.mem_singleton] at hb
    subst hb
    exact hm ha

theorem dlookup_convFrames (dd : FieldDict) (name : String) :
    dlookup (convFrames dd) (fieldKey name) =
      (dlookup dd name).map (fieldFrame name) := by
  induction dd with
  | nil => rfl
  | cons p rest ih =>
    obtain ⟨a, va⟩ := p
    by_cases ha : a = name
    · subst ha
      simp [convFrames, dlookup]
    · have hk : ¬fieldKey a = fieldKey name := fun hcon => ha (fieldKey_inj hcon)
      simp only [convFrames] at ih
      simp [convFrames, dlookup, hk, ha, ih]

theorem convFrames_dictSet (dd : FieldDict) (name : String) (vs : List Val) :
    convFrames (dictSet dd name vs) =
      dictSet (convFrames dd) (fieldKey name) (fieldFrame name vs) := by
  induction dd with
  | nil => rfl
  | cons p rest ih =>
    obtain ⟨a, va⟩ := p
    by_cases ha : a = name
    · subst ha
      simp [convFrames, dictSet]
    · have hk : ¬fieldKey a = fieldKey name := fun hcon => ha (fieldKey_inj hcon)
      simp only [convFrames] at ih
      simp [convFrames, dictSet, ha, hk, ih]

theorem delall_convFrames (dd : FieldDict) (name : String) :
    delall (convFrames dd) (fieldKey name) =
      convFrames (dd.filter fun p => decide (p.1 ≠ name)) := by
  induction dd with
  | nil => rfl
  | cons p rest ih =>
    obtain ⟨a, va⟩ := p
    simp only [convFrames, List.map_cons, delall, List.filter_cons, ne_eq,
      decide_not] at ih ⊢
    by_cases ha : a = name
    · subst ha
      simp [ih]
    · have hk : ¬fieldKey a = fieldKey name := fun hcon => ha (fieldKey_inj hcon)
      simp [ha, hk, ih]

theorem convFrames_keys_nodup {dd : FieldDict} (h : (dd.map Prod.fst).Nodup) :
    ((convFrames dd).map Prod.fst).Nodup := by
  have : (convFrames dd).map Prod.fst = (dd.map Prod.fst).map fieldKey := by
    simp [convFrames, Function.comp]
  rw [this]
  exact h.map fun a b hab => fieldKey_inj hab

theorem frameOutcome_fieldFrame (name : String) (vs : List Val) :
    frameOutcome vorbis_to_id3_map id3_frames_to_ignore (fieldFrame name vs) =
      .field name vs := by
  cases hl : dlookup vorbis_to_id3_map name with
  | some fid =>
    have hrev : revLookup vorbis_to_id3_map fid = some name :=
      revLookup_of_dlookup hl
    simp [fieldFrame, hl, frameOutcome, mkTagFrame, hrev]
  | none =>
    have h1 : revLookup vorbis_to_id3_map "TXXX" = none := by decide
    simp [fieldFrame, hl, frameOutcome, h1, id3_frames_to_ignore]

theorem id3Fold_convFrames (tags : Frames) (dd : FieldDict) (acc : FieldDict) :
    id3Fold vorbis_to_id3_map id3_frames_to_ignore tags acc (convFrames dd) =
      .ok (dictUpdate acc dd) := by
  induction dd generalizing acc with
  | nil => rfl
  | cons p rest ih =>
    obtain ⟨name, vs⟩ := p
    simp only [convFrames, List.map_cons, id3Fold, frameOutcome_fieldFrame]
    have : dictUpdate acc ((name, vs) :: rest) =
        dictUpdate (dictSet acc name vs) rest := by
      simp [dictUpdate]
    rw [this]
    exact ih (dictSet acc name vs)

theorem mem_dictSet {κ α : Type} [DecidableEq κ] {q : κ × α} {d : List (κ × α)}
    {k : κ} {v : α} (h : q ∈ dictSet d k v) : q ∈ d ∨ q = (k, v) := by
  induction d with
  | nil => simpa [dictSet] using h
  | cons p rest ih =>
    obtain ⟨a, va⟩ := p
    have hd : dictSet ((a, va) :: rest) k v =
        if a = k then (a, v) :: rest else (a, va) :: dictSet rest k v := rfl
    rw [hd] at h
    split_ifs at h with hc
    · subst hc
      rcases List.mem_cons.mp h with h | h
      · exact Or.inr h
      · exact Or.inl (List.mem_cons_of_mem _ h)
    · rcases List.mem_cons.mp h with h | h
      · exact Or.inl (by rw [h]; exact List.mem_cons_self _ _)
      · rcases ih h with h2 | h2
        · exact Or.inl (List.mem_cons_of_mem _ h2)
        · exact Or.inr h2

theorem combineStep_skip (fs : Frames) (totKey numKey : HKey) (numFid : String)
    (h : dlookup fs totKey = none ∨ dlookup fs numKey = none) :
    combineStep totKey numKey numFid fs = .ok fs := by
  rcases h with h | h
  · cases h2 : dlookup fs numKey <;> simp [combineStep, h, h2]
  · cases h2 : dlookup fs totKey <;> simp [combineStep, h, h2]

theorem combineStep_convFrames_present (dd : FieldDict)
    (numName totName numFid : String) (nv tv : Val) (nvs tvs : List Val)
    (hknum : fieldKey numName = ⟨numFid, none⟩)
    (hktot : fieldKey totName = ⟨"TXXX", some totName⟩)
    (hffnum : ∀ x : List Val, fieldFrame numName x = mkTagFrame numFid x)
    (hfftot : ∀ x : List Val, fieldFrame totName x = ⟨"TXXX", some totName, some x⟩)
    (hnum : dlookup dd numName = some (nv :: nvs))
    (htot : dlookup dd totName = some (tv :: tvs)) :
    combineStep ⟨"TXXX", some totName⟩ ⟨numFid, none⟩ numFid (convFrames dd) =
      .ok (convFrames ((dictSet dd numName [nv ++ '/' :: tv]).filter
        fun p => decide (p.1 ≠ totName))) := by
  have hltot : dlookup (convFrames dd) ⟨"TXXX", some totName⟩ =
      some (⟨"TXXX", some totName, some (tv :: tvs)⟩ : Frame) := by
    rw [← hktot, dlookup_convFrames, htot]
    simp [hfftot]
  have hlnum : dlookup (convFrames dd) ⟨numFid, none⟩ =
      some (mkTagFrame numFid (nv :: nvs)) := by
    rw [← hknum, dlookup_convFrames, hnum]
    simp [hffnum]
  have haddkey : hashKey (mkTagFrame numFid [nv ++ '/' :: tv]) = fieldKey numName := by
    rw [← hffnum]
    exact hashKey_fieldFrame numName _
  have hgt1 : getText0 (mkTagFrame numFid (nv :: nvs)) = .ok nv := rfl
  have hgt2 : getText0 (⟨"TXXX", some totName, some (tv :: tvs)⟩ : Frame) =
    .ok tv := rfl
  simp only [combineStep, hltot, hlnum, hgt1, hgt2]
  rw [addFrame, haddkey, ← hffnum, ← convFrames_dictSet, ← hktot,
    delall_convFrames]

theorem merge_conclusions (dd : FieldDict) (numName totName numFid : String)
    (x : Val)
    (hknum : fieldKey numName = ⟨numFid, none⟩)
    (hktot : fieldKey totName = ⟨"TXXX", some totName⟩)
    (hffnum : ∀ v : List Val, fieldFrame numName v = mkTagFrame numFid v)
    (hnd : (dd.map Prod.fst).Nodup)
    (hnum : dlookup dd numName = some [x])
    (htot : dlookup dd totName = none) :
    dlookup (convFrames dd) ⟨numFid, none⟩ = some (mkTagFrame numFid [x]) ∧
    ⟨"TXXX", some totName⟩ ∉ (convFrames dd).map Prod.fst ∧
    ((convFrames dd).map Prod.fst).count ⟨numFid, none⟩ = 1 := by
  have h1 : dlookup (convFrames dd) ⟨numFid, none⟩ =
      some (mkTagFrame numFid [x]) := by
    rw [← hknum, dlookup_convFrames, hnum]
    simp [hffnum]
  have h2 : dlookup (convFrames dd) ⟨"TXXX", some totName⟩ = none := by
    rw [← hktot, dlookup_convFrames, htot]
    rfl
  refine ⟨h1, (dlookup_eq_none_iff_not_mem _ _).mp h2, ?_⟩
  have hmem : (⟨numFid, none⟩ : HKey) ∈ (convFrames dd).map Prod.fst := by
    rw [← dlookup_isSome_iff_mem, h1]
    rfl
  exact List.count_eq_one_of_mem (convFrames_keys_nodup hnd) hmem

theorem keys_filter_nodup {κ α : Type} [DecidableEq κ] {d : List (κ × α)}
    (h : (d.map Prod.fst).Nodup) (p : κ × α → Bool) :
    ((d.filter p).map Prod.fst).Nodup :=
  List.Nodup.sublist ((List.filter_sublist d).map Prod.fst) h

theorem vals_ne_nil_of_filter_dictSet {d : FieldDict} {k totName : String}
    {v : List Val} (hvals : ∀ p ∈ d, p.2 ≠ []) (hv : v ≠ []) :
    ∀ p ∈ (dictSet d k v).filter fun p => decide (p.1 ≠ totName), p.2 ≠ [] := by
  intro p hp
  have hp2 := List.mem_of_mem_filter hp
  rcases mem_dictSet hp2 with h | rfl
  · exact hvals p h
  · exact hv

/-- One combining step of `xx_total_correct` on a converted field dict,
whether or not the number/total pair is present: the result is again a
converted field dict, with distinct keys, non-empty values and all other
fields untouched. -/
theorem combineStep_convFrames_cases (d : FieldDict)
    (numName totName numFid : String)
    (hknum : fieldKey numName = ⟨numFid, none⟩)
    (hktot : fieldKey totName = ⟨"TXXX", some totName⟩)
    (hffnum : ∀ v : List Val, fieldFrame numName v = mkTagFrame numFid v)
    (hfftot : ∀ v : List Val, fieldFrame totName v = ⟨"TXXX", some totName, some v⟩)
    (hnd : (d.map Prod.fst).Nodup) (hvals : ∀ p ∈ d, p.2 ≠ []) :
    ∃ d1, combineStep ⟨"TXXX", some totName⟩ ⟨numFid, none⟩ numFid
        (convFrames d) = .ok (convFrames d1) ∧
      (d1.map Prod.fst).Nodup ∧ (∀ p ∈ d1, p.2 ≠ []) ∧
      (∀ k : String, k ≠ numName → k ≠ totName →
        dlookup d1 k = dlookup d k) := by
  rcases htot : dlookup d totName with _ | tv
  · refine ⟨d, ?_, hnd, hvals, fun k _ _ => rfl⟩
    refine combineStep_skip _ _ _ _ (Or.inl ?_)
    rw [← hktot, dlookup_convFrames, htot]
    rfl
  · obtain ⟨t, ts, rfl⟩ : ∃ a as, tv = a :: as := by
      rcases tv with _ | ⟨a, as⟩
      · exact absurd rfl (hvals _ (dlookup_mem _ htot))
      · exact ⟨a, as, rfl⟩
    rcases hnum : dlookup d numName with _ | nv
    · refine ⟨d, ?_, hnd, hvals, fun k _ _ => rfl⟩
      refine combineStep_skip _ _ _ _ (Or.inr ?_)
      rw [← hknum, dlookup_convFrames, hnum]
      rfl
    · obtain ⟨n, ns, rfl⟩ : ∃ a as, nv = a :: as := by
        rcases nv with _ | ⟨a, as⟩
        · exact absurd rfl (hvals _ (dlookup_mem _ hnum))
        · exact ⟨a, as, rfl⟩
      refine ⟨(dictSet d numName [n ++ '/' :: t]).filter
          (fun p => decide (p.1 ≠ totName)),
        combineStep_convFrames_present d numName totName numFid n t ns ts
          hknum hktot hffnum hfftot hnum htot,
        keys_filter_nodup (dictSet_keys_nodup d _ _ hnd) _,
        vals_ne_nil_of_filter_dictSet hvals (by simp),
        fun k hk1 hk2 => by
          rw [dlookup_filter_ne _ hk2, dlookup_dictSet_ne _ _ hk1]⟩

/-! ## Claim C4: field to frame conversion of number/total pairs -/

/-- C4 counterexample: the claim's universal part fails — a field set
holding a total field without its matching number field emits the total
as its own description-keyed TXXX frame, which survives conversion. -/
theorem C4_counterexample :
    copy_tag_dict_to_mp3 [] [("tracktotal", [['1', '4']])] =
      .ok [(⟨"TXXX", some "tracktotal"⟩,
        ⟨"TXXX", some "tracktotal", some [['1', '4']]⟩)] := rfl

/-- C4 (amended): converting a field dict (with distinct keys and
non-empty value lists) into an empty container, when BOTH the number and
the total field of a pair are present — for the track pair
tracknumber/tracktotal, and independently for the disc pair
discnumber/disctotal — yields exactly one combined number frame (TRCK
resp. TPOS) carrying the first values joined as N/M, and no standalone
TXXX total frame for that pair.  (The amendment drops the claim's final
universal clause: a total field without its number field does survive as
its own frame, see the counterexample.) -/
theorem C4_total_merge :
    (∀ (d : FieldDict) (n t : Val) (ns ts : List Val),
      (d.map Prod.fst).Nodup →
      (∀ p ∈ d, p.2 ≠ []) →
      dlookup d "tracknumber" = some (n :: ns) →
      dlookup d "tracktotal" = some (t :: ts) →
      ∃ fs, copy_tag_dict_to_mp3 [] d = .ok fs ∧
        dlookup fs ⟨"TRCK", none⟩ = some (mkTagFrame "TRCK" [n ++ '/' :: t]) ∧
        ⟨"TXXX", some "tracktotal"⟩ ∉ fs.map Prod.fst ∧
        (fs.map Prod.fst).count ⟨"TRCK", none⟩ = 1) ∧
    (∀ (d : FieldDict) (n t : Val) (ns ts : List Val),
      (d.map Prod.fst).Nodup →
      (∀ p ∈ d, p.2 ≠ []) →
      dlookup d "discnumber" = some (n :: ns) →
      dlookup d "disctotal" = some (t :: ts) →
      ∃ fs, copy_tag_dict_to_mp3 [] d = .ok fs ∧
        dlookup fs ⟨"TPOS", none⟩ = some (mkTagFrame "TPOS" [n ++ '/' :: t]) ∧
        ⟨"TXXX", some "disctotal"⟩ ∉ fs.map Prod.fst ∧
        (fs.map Prod.fst).count ⟨"TPOS", none⟩ = 1) := by
  constructor
  · intro d n t ns ts hnd hvals htn htt
    have hconv : addTagFrames vorbis_to_id3_map [] d = .ok (convFrames d) := by
      simpa using addTagFrames_eq d [] (by simp) hnd
    have htrack := combineStep_convFrames_present d "tracknumber" "tracktotal"
      "TRCK" n t ns ts rfl rfl (fun _ => rfl) (fun _ => rfl) htn htt
    set d1 : FieldDict := (dictSet d "tracknumber" [n ++ '/' :: t]).filter
      (fun p => decide (p.1 ≠ "tracktotal")) with hd1
    have hnd1 : (d1.map Prod.fst).Nodup :=
      keys_filter_nodup (dictSet_keys_nodup d _ _ hnd) _
    have hvals1 : ∀ p ∈ d1, p.2 ≠ [] :=
      vals_ne_nil_of_filter_dictSet hvals (by simp)
    have htn1 : dlookup d1 "tracknumber" = some [n ++ '/' :: t] := by
      rw [hd1, dlookup_filter_ne _ (by decide), dlookup_dictSet_self]
    have htt1 : dlookup d1 "tracktotal" = none := by
      rw [hd1, dlookup_filter_self]
    obtain ⟨d2, hdisc, hnd2, _, hpres⟩ := combineStep_convFrames_cases d1
      "discnumber" "disctotal" "TPOS" rfl rfl (fun _ => rfl) (fun _ => rfl)
      hnd1 hvals1
    refine ⟨convFrames d2, ?_, ?_⟩
    · rw [copy_tag_dict_to_mp3, copy_tag_dict_to_mp3_gen, hconv]
      simp only [xx_total_correct_id3, htrack, hdisc]
    · exact merge_conclusions d2 "tracknumber" "tracktotal" "TRCK" _ rfl rfl
        (fun _ => rfl) hnd2
        (by rw [hpres _ (by decide) (by decide), htn1])
        (by rw [hpres _ (by decide) (by decide), htt1])
  · intro d n t ns ts hnd hvals hdn hdt
    have hconv : addTagFrames vorbis_to_id3_map [] d = .ok (convFrames d) := by
      simpa using addTagFrames_eq d [] (by simp) hnd
    obtain ⟨d1, htrack, hnd1, hvals1, hpres1⟩ := combineStep_convFrames_cases d
      "tracknumber" "tracktotal" "TRCK" rfl rfl (fun _ => rfl) (fun _ => rfl)
      hnd hvals
    have hdn1 : dlookup d1 "discnumber" = some (n :: ns) := by
      rw [hpres1 _ (by decide) (by decide), hdn]
    have hdt1 : dlookup d1 "disctotal" = some (t :: ts) := by
      rw [hpres1 _ (by decide) (by decide), hdt]
    have hdisc := combineStep_convFrames_present d1 "discnumber" "disctotal"
      "TPOS" n t ns ts rfl rfl (fun _ => rfl) (fun _ => rfl) hdn1 hdt1
    set d2 : FieldDict := (dictSet d1 "discnumber" [n ++ '/' :: t]).filter
      (fun p => decide (p.1 ≠ "disctotal")) with hd2
    have hnd2 : (d2.map Prod.fst).Nodup :=
      keys_filter_nodup (dictSet_keys_nodup d1 _ _ hnd1) _
    have hdn2 : dlookup d2 "discnumber" = some [n ++ '/' :: t] := by
      rw [hd2, dlookup_filter_ne _ (by decide), dlookup_dictSet_self]
    have hdt2 : dlookup d2 "disctotal" = none := by
      rw [hd2, dlookup_filter_self]
    refine ⟨convFrames d2, ?_, merge_conclusions d2 "discnumber" "disctotal"
      "TPOS" _ rfl rfl (fun _ => rfl) hnd2 hdn2 hdt2⟩
    rw [copy_tag_dict_to_mp3, copy_tag_dict_to_mp3_gen, hconv]
    simp only [xx_total_correct_id3, htrack, hdisc]

theorem C4_total_merge_witness :
    ((([("tracknumber", [['3']]), ("tracktotal", [['1', '4']])] :
        FieldDict).map Prod.fst).Nodup ∧
      dlookup [("tracknumber", [['3']]), ("tracktotal", [['1', '4']])]
        "tracknumber" = some [['3']] ∧
      ∃ fs, copy_tag_dict_to_mp3 []
          [("tracknumber", [['3']]), ("tracktotal", [['1', '4']])] = .ok fs ∧
        dlookup fs ⟨"TRCK", none⟩ =
          some (mkTagFrame "TRCK" [['3'] ++ '/' :: ['1', '4']]) ∧
        ⟨"TXXX", some "tracktotal"⟩ ∉ fs.map Prod.fst ∧
        (fs.map Prod.fst).count ⟨"TRCK", none⟩ = 1) ∧
    ((([("discnumber", [['1']]), ("disctotal", [['2']])] :
        FieldDict).map Prod.fst).Nodup ∧
      dlookup [("discnumber", [['1']]), ("disctotal", [['2']])]
        "disctotal" = some [['2']] ∧
      ∃ fs, copy_tag_dict_to_mp3 []
          [("discnumber", [['1']]), ("disctotal", [['2']])] = .ok fs ∧
        dlookup fs ⟨"TPOS", none⟩ =
          some (mkTagFrame "TPOS" [['1'] ++ '/' :: ['2']]) ∧
        ⟨"TXXX", some "disctotal"⟩ ∉ fs.map Prod.fst ∧
        (fs.map Prod.fst).count ⟨"TPOS", none⟩ = 1) :=
  ⟨⟨by decide, by decide,
      C4_total_merge.1 [("tracknumber", [['3']]), ("tracktotal", [['1', '4']])]
        ['3'] ['1', '4'] [] [] (by decide) (by decide) (by decide) (by decide)⟩,
    ⟨by decide, by decide,
      C4_total_merge.2 [("discnumber", [['1']]), ("disctotal", [['2']])]
        ['1'] ['2'] [] [] (by decide) (by decide) (by decide) (by decide)⟩⟩

/-! ## Claim C5: number/total round trip -/

/-- C5: a field dict with distinct keys holding separate single-valued,
slash-free number and total fields — for the track pair alone (no disc
fields), for the disc pair alone (no track fields), or for both pairs at
once — plus arbitrary further fields, converted to the frame
representation (into an empty container) and back, reproduces the
original split number and total fields of each pair present. -/
theorem C5_total_roundtrip :
    (∀ (d : FieldDict) (n t : Val),
      (d.map Prod.fst).Nodup →
      dlookup d "tracknumber" = some [n] → '/' ∉ n →
      dlookup d "tracktotal" = some [t] → '/' ∉ t →
      dlookup d "discnumber" = none →
      dlookup d "disctotal" = none →
      ∃ fs d', copy_tag_dict_to_mp3 [] d = .ok fs ∧
        id3_tags_as_dict fs = .ok d' ∧
        dlookup d' "tracknumber" = some [n] ∧
        dlookup d' "tracktotal" = some [t] ∧
        dlookup d' "discnumber" = none ∧
        dlookup d' "disctotal" = none) ∧
    (∀ (d : FieldDict) (n t : Val),
      (d.map Prod.fst).Nodup →
      dlookup d "tracknumber" = none →
      dlookup d "tracktotal" = none →
      dlookup d "discnumber" = some [n] → '/' ∉ n →
      dlookup d "disctotal" = some [t] → '/' ∉ t →
      ∃ fs d', copy_tag_dict_to_mp3 [] d = .ok fs ∧
        id3_tags_as_dict fs = .ok d' ∧
        dlookup d' "tracknumber" = none ∧
        dlookup d' "tracktotal" = none ∧
        dlookup d' "discnumber" = some [n] ∧
        dlookup d' "disctotal" = some [t]) ∧
    (∀ (d : FieldDict) (n t dn dt : Val),
      (d.map Prod.fst).Nodup →
      dlookup d "tracknumber" = some [n] → '/' ∉ n →
      dlookup d "tracktotal" = some [t] → '/' ∉ t →
      dlookup d "discnumber" = some [dn] → '/' ∉ dn →
      dlookup d "disctotal" = some [dt] → '/' ∉ dt →
      ∃ fs d', copy_tag_dict_to_mp3 [] d = .ok fs ∧
        id3_tags_as_dict fs = .ok d' ∧
        dlookup d' "tracknumber" = some [n] ∧
        dlookup d' "tracktotal" = some [t] ∧
        dlookup d' "discnumber" = some [dn] ∧
        dlookup d' "disctotal" = some [dt]) := by
  refine ⟨?_, ?_, ?_⟩
  · intro d n t hnd htn hn htt ht hdnA hdtA
    have hconv : addTagFrames vorbis_to_id3_map [] d = .ok (convFrames d) := by
      simpa using addTagFrames_eq d [] (by simp) hnd
    have htrack := combineStep_convFrames_present d "tracknumber" "tracktotal"
      "TRCK" n t [] [] rfl rfl (fun _ => rfl) (fun _ => rfl) htn htt
    set d1 : FieldDict := (dictSet d "tracknumber" [n ++ '/' :: t]).filter
      (fun p => decide (p.1 ≠ "tracktotal")) with hd1
    have hnd1 : (d1.map Prod.fst).Nodup :=
      keys_filter_nodup (dictSet_keys_nodup d _ _ hnd) _
    have hdn1 : dlookup d1 "discnumber" = none := by
      rw [hd1, dlookup_filter_ne _ (by decide),
        dlookup_dictSet_ne _ _ (by decide), hdnA]
    have hdt1 : dlookup d1 "disctotal" = none := by
      rw [hd1, dlookup_filter_ne _ (by decide),
        dlookup_dictSet_ne _ _ (by decide), hdtA]
    have hdisc : combineStep ⟨"TXXX", some "disctotal"⟩ ⟨"TPOS", none⟩ "TPOS"
        (convFrames d1) = .ok (convFrames d1) := by
      refine combineStep_skip _ _ _ _ (Or.inl ?_)
      have hk : fieldKey "disctotal" = ⟨"TXXX", some "disctotal"⟩ := rfl
      rw [← hk, dlookup_convFrames, hdt1]
      rfl
    have hcopy : copy_tag_dict_to_mp3 [] d = .ok (convFrames d1) := by
      rw [copy_tag_dict_to_mp3, copy_tag_dict_to_mp3_gen, hconv]
      simp only [xx_total_correct_id3, htrack, hdisc]
    have htn1 : dlookup d1 "tracknumber" = some [n ++ '/' :: t] := by
      rw [hd1, dlookup_filter_ne _ (by decide), dlookup_dictSet_self]
    have hback : id3Fold vorbis_to_id3_map id3_frames_to_ignore
        (convFrames d1) [] (convFrames d1) = .ok d1 := by
      rw [id3Fold_convFrames]
      have : dictUpdate [] d1 = [] ++ d1 :=
        dictUpdate_of_fresh [] d1 (by simp) hnd1
      rw [this]
      rfl
    have hsplit1 : splitStep "tracknumber" "tracktotal" d1 =
        .ok (dictSet (dictSet d1 "tracknumber" [n]) "tracktotal" [t]) := by
      have hmem : '/' ∈ n ++ '/' :: t := by simp
      have hps : pySplit '/' (n ++ '/' :: t) = [n, t] := by
        rw [pySplit_append _ hn, pySplit_of_not_mem ht]
      simp only [splitStep, htn1]
      rw [if_pos hmem, hps]
    set d3 : FieldDict := dictSet (dictSet d1 "tracknumber" [n])
      "tracktotal" [t] with hd3
    have hdn3 : dlookup d3 "discnumber" = none := by
      rw [hd3, dlookup_dictSet_ne _ _ (by decide),
        dlookup_dictSet_ne _ _ (by decide), hdn1]
    have hsplit2 : splitStep "discnumber" "disctotal" d3 = .ok d3 := by
      simp only [splitStep, hdn3]
    have hfinal : id3_tags_as_dict (convFrames d1) = .ok d3 := by
      rw [id3_tags_as_dict, id3_tags_as_dict_gen, hback]
      simp only [xx_total_correct_dict, hsplit1, hsplit2, hd3]
    refine ⟨convFrames d1, d3, hcopy, hfinal, ?_, ?_, hdn3, ?_⟩
    · rw [hd3, dlookup_dictSet_ne _ _ (by decide), dlookup_dictSet_self]
    · rw [hd3, dlookup_dictSet_self]
    · rw [hd3, dlookup_dictSet_ne _ _ (by decide),
        dlookup_dictSet_ne _ _ (by decide), hdt1]
  · intro d n t hnd htnA httA hdn hdnf hdt hdtf
    have hconv : addTagFrames vorbis_to_id3_map [] d = .ok (convFrames d) := by
      simpa using addTagFrames_eq d [] (by simp) hnd
    have htrack : combineStep ⟨"TXXX", some "tracktotal"⟩ ⟨"TRCK", none⟩ "TRCK"
        (convFrames d) = .ok (convFrames d) := by
      refine combineStep_skip _ _ _ _ (Or.inl ?_)
      have hk : fieldKey "tracktotal" = ⟨"TXXX", some "tracktotal"⟩ := rfl
      rw [← hk, dlookup_convFrames, httA]
      rfl
    have hdisc := combineStep_convFrames_present d "discnumber" "disctotal"
      "TPOS" n t [] [] rfl rfl (fun _ => rfl) (fun _ => rfl) hdn hdt
    set d2 : FieldDict := (dictSet d "discnumber" [n ++ '/' :: t]).filter
      (fun p => decide (p.1 ≠ "disctotal")) with hd2
    have hnd2 : (d2.map Prod.fst).Nodup :=
      keys_filter_nodup (dictSet_keys_nodup d _ _ hnd) _
    have hcopy : copy_tag_dict_to_mp3 [] d = .ok (convFrames d2) := by
      rw [copy_tag_dict_to_mp3, copy_tag_dict_to_mp3_gen, hconv]
      simp only [xx_total_correct_id3, htrack, hdisc]
    have htn2 : dlookup d2 "tracknumber" = none := by
      rw [hd2, dlookup_filter_ne _ (by decide),
        dlookup_dictSet_ne _ _ (by decide), htnA]
    have htt2 : dlookup d2 "tracktotal" = none := by
      rw [hd2, dlookup_filter_ne _ (by decide),
        dlookup_dictSet_ne _ _ (by decide), httA]
    have hdn2 : dlookup d2 "discnumber" = some [n ++ '/' :: t] := by
      rw [hd2, dlookup_filter_ne _ (by decide), dlookup_dictSet_self]
    have hback : id3Fold vorbis_to_id3_map id3_frames_to_ignore
        (convFrames d2) [] (convFrames d2) = .ok d2 := by
      rw [id3Fold_convFrames]
      have : dictUpdate [] d2 = [] ++ d2 :=
        dictUpdate_of_fresh [] d2 (by simp) hnd2
      rw [this]
      rfl
    have hsplit1 : splitStep "tracknumber" "tracktotal" d2 = .ok d2 := by
      simp only [splitStep, htn2]
    have hsplit2 : splitStep "discnumber" "disctotal" d2 =
        .ok (dictSet (dictSet d2 "discnumber" [n]) "disctotal" [t]) := by
      have hmem : '/' ∈ n ++ '/' :: t := by simp
      have hps : pySplit '/' (n ++ '/' :: t) = [n, t] := by
        rw [pySplit_append _ hdnf, pySplit_of_not_mem hdtf]
      simp only [splitStep, hdn2]
      rw [if_pos hmem, hps]
    set d4 : FieldDict := dictSet (dictSet d2 "discnumber" [n])
      "disctotal" [t] with hd4
    have hfinal : id3_tags_as_dict (convFrames d2) = .ok d4 := by
      rw [id3_tags_as_dict, id3_tags_as_dict_gen, hback]
      simp only [xx_total_correct_dict, hsplit1, hsplit2, hd4]
    refine ⟨convFrames d2, d4, hcopy, hfinal, ?_, ?_, ?_, ?_⟩
    · rw [hd4, dlookup_dictSet_ne _ _ (by decide),
        dlookup_dictSet_ne _ _ (by decide), htn2]
    · rw [hd4, dlookup_dictSet_ne _ _ (by decide),
        dlookup_dictSet_ne _ _ (by decide), htt2]
    · rw [hd4, dlookup_dictSet_ne _ _ (by decide), dlookup_dictSet_self]
    · rw [hd4, dlookup_dictSet_self]
  · intro d n t dn dt hnd htn hn htt ht hdn hdnf hdt hdtf
    have hconv : addTagFrames vorbis_to_id3_map [] d = .ok (convFrames d) := by
      simpa using addTagFrames_eq d [] (by simp) hnd
    have htrack := combineStep_convFrames_present d "tracknumber" "tracktotal"
      "TRCK" n t [] [] rfl rfl (fun _ => rfl) (fun _ => rfl) htn htt
    set d1 : FieldDict := (dictSet d "tracknumber" [n ++ '/' :: t]).filter
      (fun p => decide (p.1 ≠ "tracktotal")) with hd1
    have hnd1 : (d1.map Prod.fst).Nodup :=
      keys_filter_nodup (dictSet_keys_nodup d _ _ hnd) _
    have hdn1 : dlookup d1 "discnumber" = some [dn] := by
      rw [hd1, dlookup_filter_ne _ (by decide),
        dlookup_dictSet_ne _ _ (by decide), hdn]
    have hdt1 : dlookup d1 "disctotal" = some [dt] := by
      rw [hd1, dlookup_filter_ne _ (by decide),
        dlookup_dictSet_ne _ _ (by decide), hdt]
    have hdisc := combineStep_convFrames_present d1 "discnumber" "disctotal"
      "TPOS" dn dt [] [] rfl rfl (fun _ => rfl) (fun _ => rfl) hdn1 hdt1
    set d2 : FieldDict := (dictSet d1 "discnumber" [dn ++ '/' :: dt]).filter
      (fun p => decide (p.1 ≠ "disctotal")) with hd2
    have hnd2 : (d2.map Prod.fst).Nodup :=
      keys_filter_nodup (dictSet_keys_nodup d1 _ _ hnd1) _
    have hcopy : copy_tag_dict_to_mp3 [] d = .ok (convFrames d2) := by
      rw [copy_tag_dict_to_mp3, copy_tag_dict_to_mp3_gen, hconv]
      simp only [xx_total_correct_id3, htrack, hdisc]
    have htn2 : dlookup d2 "tracknumber" = some [n ++ '/' :: t] := by
      rw [hd2, dlookup_filter_ne _ (by decide),
        dlookup_dictSet_ne _ _ (by decide), hd1,
        dlookup_filter_ne _ (by decide), dlookup_dictSet_self]
    have hdn2 : dlookup d2 "discnumber" = some [dn ++ '/' :: dt] := by
      rw [hd2, dlookup_filter_ne _ (by decide), dlookup_dictSet_self]
    have hback : id3Fold vorbis_to_id3_map id3_frames_to_ignore
        (convFrames d2) [] (convFrames d2) = .ok d2 := by
      rw [id3Fold_convFrames]
      have : dictUpdate [] d2 = [] ++ d2 :=
        dictUpdate_of_fresh [] d2 (by simp) hnd2
      rw [this]
      rfl
    have hsplit1 : splitStep "tracknumber" "tracktotal" d2 =
        .ok (dictSet (dictSet d2 "tracknumber" [n]) "tracktotal" [t]) := by
      have hmem : '/' ∈ n ++ '/' :: t := by simp
      have hps : pySplit '/' (n ++ '/' :: t) = [n, t] := by
        rw [pySplit_append _ hn, pySplit_of_not_mem ht]
      simp only [splitStep, htn2]
      rw [if_pos hmem, hps]
    set d3 : FieldDict := dictSet (dictSet d2 "tracknumber" [n])
      "tracktotal" [t] with hd3
    have hdn3 : dlookup d3 "discnumber" = some [dn ++ '/' :: dt] := by
      rw [hd3, dlookup_dictSet_ne _ _ (by decide),
        dlookup_dictSet_ne _ _ (by decide), hdn2]
    have hsplit2 : splitStep "discnumber" "disctotal" d3 =
        .ok (dictSet (dictSet d3 "discnumber" [dn]) "disctotal" [dt]) := by
      have hmem : '/' ∈ dn ++ '/' :: dt := by simp
      have hps : pySplit '/' (dn ++ '/' :: dt) = [dn, dt] := by
        rw [pySplit_append _ hdnf, pySplit_of_not_mem hdtf]
      simp only [splitStep, hdn3]
      rw [if_pos hmem, hps]
    set d4 : FieldDict := dictSet (dictSet d3 "discnumber" [dn])
      "disctotal" [dt] with hd4
    have hfinal : id3_tags_as_dict (convFrames d2) = .ok d4 := by
      rw [id3_tags_as_dict, id3_tags_as_dict_gen, hback]
      simp only [xx_total_correct_dict, hsplit1, hsplit2, hd3]
    refine ⟨convFrames d2, d4, hcopy, hfinal, ?_, ?_, ?_, ?_⟩
    · rw [hd4, dlookup_dictSet_ne _ _ (by decide),
        dlookup_dictSet_ne _ _ (by decide), hd3,
        dlookup_dictSet_ne _ _ (by decide), dlookup_dictSet_self]
    · rw [hd4, dlookup_dictSet_ne _ _ (by decide),
        dlookup_dictSet_ne _ _ (by decide), hd3, dlookup_dictSet_self]
    · rw [hd4, dlookup_dictSet_ne _ _ (by decide), dlookup_dictSet_self]
    · rw [hd4, dlookup_dictSet_self]

theorem C5_total_roundtrip_witness :
    ((([("tracknumber", [['3']]), ("tracktotal", [['1', '4']]),
        ("artist", [['a']])] : FieldDict).map Prod.fst).Nodup ∧
      dlookup [("tracknumber", [['3']]), ("tracktotal", [['1', '4']]),
        ("artist", [['a']])] "discnumber" = none ∧
      ∃ fs d', copy_tag_dict_to_mp3 []
          [("tracknumber", [['3']]), ("tracktotal", [['1', '4']]),
            ("artist", [['a']])] = .ok fs ∧
        id3_tags_as_dict fs = .ok d' ∧
        dlookup d' "tracknumber" = some [['3']] ∧
        dlookup d' "tracktotal" = some [['1', '4']] ∧
        dlookup d' "discnumber" = none ∧
        dlookup d' "disctotal" = none) ∧
    (∃ fs d', copy_tag_dict_to_mp3 []
          [("discnumber", [['1']]), ("disctotal", [['2']])] = .ok fs ∧
        id3_tags_as_dict fs = .ok d' ∧
        dlookup d' "tracknumber" = none ∧
        dlookup d' "tracktotal" = none ∧
        dlookup d' "discnumber" = some [['1']] ∧
        dlookup d' "disctotal" = some [['2']]) ∧
    (∃ fs d', copy_tag_dict_to_mp3 []
          [("tracknumber", [['3']]), ("tracktotal", [['1', '4']]),
            ("discnumber", [['1']]), ("disctotal", [['2']]),
            ("artist", [['a']])] = .ok fs ∧
        id3_tags_as_dict fs = .ok d' ∧
        dlookup d' "tracknumber" = some [['3']] ∧
        dlookup d' "tracktotal" = some [['1', '4']] ∧
        dlookup d' "discnumber" = some [['1']] ∧
        dlookup d' "disctotal" = some [['2']]) :=
  ⟨⟨by decide, by decide,
      C5_total_roundtrip.1
        [("tracknumber", [['3']]), ("tracktotal", [['1', '4']]),
          ("artist", [['a']])] ['3'] ['1', '4'] (by decide) (by decide)
        (by decide) (by decide) (by decide) (by decide) (by decide)⟩,
    C5_total_roundtrip.2.1 [("discnumber", [['1']]), ("disctotal", [['2']])]
      ['1'] ['2'] (by decide) (by decide) (by decide) (by decide) (by decide)
      (by decide) (by decide),
    C5_total_roundtrip.2.2
      [("tracknumber", [['3']]), ("tracktotal", [['1', '4']]),
        ("discnumber", [['1']]), ("disctotal", [['2']]), ("artist", [['a']])]
      ['3'] ['1', '4'] ['1'] ['2'] (by decide) (by decide) (by decide)
      (by decide) (by decide) (by decide) (by decide) (by decide) (by decide)⟩

/-! ## Claim C7: ignored directories are fully excluded -/

theorem fileStep_dirs (acc : Scan3) (name : String) (mtime : Int) :
    (fileStep acc name mtime).dirs = acc.dirs := by
  rw [fileStep]
  rcases splitext name with ⟨no_ext, ext⟩
  by_cases h : pyLower ext = ".flac" ∨ pyLower ext = ".mp3" <;> simp [h]

theorem scan_pruneList (ignoreDirs : List String) :
    ∀ (es : List FSEntry) (level : Nat) (acc : Scan3),
      scanList ignoreDirs level acc (pruneList ignoreDirs es) =
        scanList ignoreDirs level acc es
  | [], _, _ => by simp [pruneList]
  | FSEntry.file name mtime :: rest, level, acc => by
    simp only [pruneList, scanList]
    exact scan_pruneList ignoreDirs rest level (fileStep acc name mtime)
  | FSEntry.dir name sub :: rest, level, acc => by
    by_cases h : name ∈ ignoreDirs
    · simp only [pruneList, scanList, if_pos h]
      exact scan_pruneList ignoreDirs rest level acc
    · simp only [pruneList, scanList, if_neg h]
      rw [scan_pruneList ignoreDirs sub (level + 1) ⟨[], [], []⟩]
      exact scan_pruneList ignoreDirs rest level _
  termination_by es => sizeOf es

theorem all_keys_dictSet {κ α : Type} [DecidableEq κ] (Q : κ → Bool)
    {d : List (κ × α)} (hd : (d.all fun p => Q p.1) = true) {k : κ} (v : α)
    (hk : Q k = true) : ((dictSet d k v).all fun p => Q p.1) = true := by
  rw [List.all_eq_true] at hd ⊢
  intro p hp
  rcases mem_dictSet hp with h | rfl
  · exact hd p h
  · exact hk

theorem all_keys_dictUpdate {κ α : Type} [DecidableEq κ] (Q : κ → Bool)
    {d1 d2 : List (κ × α)} (h1 : (d1.all fun p => Q p.1) = true)
    (h2 : (d2.all fun p => Q p.1) = true) :
    ((dictUpdate d1 d2).all fun p => Q p.1) = true := by
  induction d2 generalizing d1 with
  | nil => exact h1
  | cons p rest ih =>
    obtain ⟨k, v⟩ := p
    simp only [List.all_cons, Bool.and_eq_true] at h2
    have : dictUpdate d1 ((k, v) :: rest) = dictUpdate (dictSet d1 k v) rest := by
      simp [dictUpdate]
    rw [this]
    exact ih (all_keys_dictSet Q h1 v h2.1) h2.2

theorem scan_dirs_components (ignoreDirs : List String) :
    ∀ (es : List FSEntry) (level : Nat) (acc : Scan3),
      (acc.dirs.all fun p => p.1.all fun c => !(ignoreDirs.contains c)) = true →
      ((scanList ignoreDirs level acc es).dirs.all
        fun p => p.1.all fun c => !(ignoreDirs.contains c)) = true
  | [], _, _ => by
    intro h
    simpa [scanList] using h
  | FSEntry.file name mtime :: rest, level, acc => by
    intro h
    simp only [scanList]
    refine scan_dirs_components ignoreDirs rest level _ ?_
    rw [fileStep_dirs]
    exact h
  | FSEntry.dir name sub :: rest, level, acc => by
    intro h
    by_cases hig : name ∈ ignoreDirs
    · simp only [scanList, if_pos hig]
      exact scan_dirs_components ignoreDirs rest level acc h
    · simp only [scanList, if_neg hig]
      refine scan_dirs_components ignoreDirs rest level _ ?_
      have hname : (!(ignoreDirs.contains name)) = true := by
        simpa using hig
      have hsub := scan_dirs_components ignoreDirs sub (level + 1)
        ⟨[], [], []⟩ (by simp)
      have hds : (dirStep level name acc
          (scanList ignoreDirs (level + 1) ⟨[], [], []⟩ sub)).dirs =
          dictUpdate (dictSet acc.dirs [name] level)
            ((scanList ignoreDirs (level + 1) ⟨[], [], []⟩ sub).dirs.map
              fun p => (name :: p.1, p.2)) := rfl
      rw [hds]
      refine all_keys_dictUpdate
        (fun k : RKey => k.all fun c => !(ignoreDirs.contains c))
        (all_keys_dictSet
          (fun k : RKey => k.all fun c => !(ignoreDirs.contains c))
          h level ?_) ?_
      · simpa using hig
      · rw [List.all_eq_true]
        intro q hq
        obtain ⟨p, hp, rfl⟩ := List.mem_map.mp hq
        have hallp := List.all_eq_true.mp hsub p hp
        simp only [List.all_cons, Bool.and_eq_true]
        exact ⟨hname, hallp⟩
  termination_by es => sizeOf es

/-- C7: scanning a tree is the same as scanning the tree with every
ignored directory (and its whole subtree) removed, for all three maps; no
key in the directory map has an ignored name among its path components;
consequently the ignored directories appear in neither dirsToCreate nor
dirsToDelete of the diff of two scans. -/
theorem C7_ignored_dirs_excluded (ignoreDirs : List String)
    (entries : List FSEntry) :
    (get_files_dirs ignoreDirs (pruneList ignoreDirs entries) =
      get_files_dirs ignoreDirs entries) ∧
    ((get_files_dirs ignoreDirs entries).dirs.all
      (fun p => p.1.all fun c => !(ignoreDirs.contains c)) = true) ∧
    (∀ entriesR : List FSEntry,
      ((mkCompResult (get_files_dirs ignoreDirs entries)
          (get_files_dirs ignoreDirs entriesR)).dirs_to_copy.all
        (fun p => p.1.all fun c => !(ignoreDirs.contains c)) = true) ∧
      ((mkCompResult (get_files_dirs ignoreDirs entriesR)
          (get_files_dirs ignoreDirs entries)).dirs_to_delete.all
        (fun p => p.1.all fun c => !(ignoreDirs.contains c)) = true)) := by
  have hmain := scan_dirs_components ignoreDirs entries 0 ⟨[], [], []⟩ (by simp)
  refine ⟨scan_pruneList ignoreDirs entries 0 ⟨[], [], []⟩, hmain, ?_⟩
  intro entriesR
  constructor
  · rw [List.all_eq_true]
    intro p hp
    exact List.all_eq_true.mp hmain p (List.mem_of_mem_filter hp)
  · rw [List.all_eq_true]
    intro p hp
    exact List.all_eq_true.mp hmain p (List.mem_of_mem_filter hp)

/-! ## Claim C8: the fixed apply order of `synchronise` -/

theorem dirsOf_keys_shape (ignoreDirs : List String) :
    ∀ (es : List FSEntry) (lvl : Nat) (k : RKey),
      k ∈ (dirsOf ignoreDirs lvl es).map Prod.fst →
      ∃ h tl, k = h :: tl ∧ h ∈ es.map entryName
  | [], _, k => by simp [dirsOf]
  | FSEntry.file n m :: rest, lvl, k => by
    intro hk
    simp only [dirsOf] at hk
    obtain ⟨h, tl, rfl, hmem⟩ := dirsOf_keys_shape ignoreDirs rest lvl _ hk
    exact ⟨h, tl, rfl, by simp [entryName, List.mem_cons, hmem]⟩
  | FSEntry.dir name sub :: rest, lvl, k => by
    intro hk
    by_cases hig : name ∈ ignoreDirs
    · simp only [dirsOf, if_pos hig] at hk
      obtain ⟨h, tl, rfl, hmem⟩ := dirsOf_keys_shape ignoreDirs rest lvl _ hk
      exact ⟨h, tl, rfl, by simp [entryName, List.mem_cons, hmem]⟩
    · simp only [dirsOf, if_neg hig, List.map_cons, List.map_append,
        List.mem_cons, List.mem_append] at hk
      rcases hk with (rfl | hk) | hk
      · exact ⟨name, [], rfl, by simp [entryName]⟩
      · simp only [List.map_map, List.mem_map, Function.comp] at hk
        obtain ⟨p, _, rfl⟩ := hk
        exact ⟨name, p.1, rfl, by simp [entryName]⟩
      · obtain ⟨h, tl, rfl, hmem⟩ := dirsOf_keys_shape ignoreDirs rest lvl _ hk
        exact ⟨h, tl, rfl, by simp [entryName, List.mem_cons, hmem]⟩
  termination_by es => sizeOf es

theorem dirsOf_keys_nodup (ignoreDirs : List String) :
    ∀ (es : List FSEntry) (lvl : Nat), wfTree es = true →
      ((dirsOf ignoreDirs lvl es).map Prod.fst).Nodup
  | [], _, _ => by simp [dirsOf]
  | FSEntry.file n m :: rest, lvl, hwf => by
    simp only [wfTree, Bool.and_eq_true] at hwf
    simp only [dirsOf]
    exact dirsOf_keys_nodup ignoreDirs rest lvl hwf.2
  | FSEntry.dir name sub :: rest, lvl, hwf => by
    simp only [wfTree, Bool.and_eq_true, decide_eq_true_eq] at hwf
    obtain ⟨⟨hname, hwsub⟩, hwrest⟩ := hwf
    by_cases hig : name ∈ ignoreDirs
    · simp only [dirsOf, if_pos hig]
      exact dirsOf_keys_nodup ignoreDirs rest lvl hwrest
    · simp only [dirsOf, if_neg hig, List.map_cons, List.map_append]
      have hkeysmap : ((dirsOf ignoreDirs (lvl + 1) sub).map
          (fun p => (name :: p.1, p.2))).map Prod.fst =
          ((dirsOf ignoreDirs (lvl + 1) sub).map Prod.fst).map
            (fun k => name :: k) := by
        simp [List.map_map, Function.comp]
      rw [List.nodup_append]
      refine ⟨?_, dirsOf_keys_nodup ignoreDirs rest lvl hwrest, ?_⟩
      · rw [List.nodup_cons, hkeysmap]
        constructor
        · rw [List.mem_map]
          rintro ⟨k, hk, hcon⟩
          obtain ⟨h, tl, rfl, _⟩ :=
            dirsOf_keys_shape ignoreDirs sub (lvl + 1) k hk
          simp at hcon
        · exact (dirsOf_keys_nodup ignoreDirs sub (lvl + 1) hwsub).map
            (fun a b hab => by simpa using hab)
      · intro a ha1 ha2
        obtain ⟨h, tl, heq, hmem⟩ :=
          dirsOf_keys_shape ignoreDirs rest lvl _ ha2
        rcases List.mem_cons.mp ha1 with rfl | ha1
        · simp only [List.cons.injEq] at heq
          exact hname (heq.1 ▸ hmem)
        · rw [hkeysmap, List.mem_map] at ha1
          obtain ⟨k0, _, rfl⟩ := ha1
          simp only [List.cons.injEq] at heq
          exact hname (heq.1 ▸ hmem)
  termination_by es => sizeOf es

theorem dirsOf_pairwise (ignoreDirs : List String) :
    ∀ (es : List FSEntry) (lvl : Nat), wfTree es = true →
      ((dirsOf ignoreDirs lvl es).map Prod.fst).Pairwise
        (fun a b => ¬(b <+: a ∧ b ≠ a))
  | [], _, _ => by simp [dirsOf]
  | FSEntry.file n m :: rest, lvl, hwf => by
    simp only [wfTree, Bool.and_eq_true] at hwf
    simp only [dirsOf]
    exact dirsOf_pairwise ignoreDirs rest lvl hwf.2
  | FSEntry.dir name sub :: rest, lvl, hwf => by
    simp only [wfTree, Bool.and_eq_true, decide_eq_true_eq] at hwf
    obtain ⟨⟨hname, hwsub⟩, hwrest⟩ := hwf
    by_cases hig : name ∈ ignoreDirs
    · simp only [dirsOf, if_pos hig]
      exact dirsOf_pairwise ignoreDirs rest lvl hwrest
    · simp only [dirsOf, if_neg hig, List.map_cons, List.map_append]
      have hkeysmap : ((dirsOf ignoreDirs (lvl + 1) sub).map
          (fun p => (name :: p.1, p.2))).map Prod.fst =
          ((dirsOf ignoreDirs (lvl + 1) sub).map Prod.fst).map
            (fun k => name :: k) := by
        simp [List.map_map, Function.comp]
      rw [List.pairwise_append]
      refine ⟨?_, dirsOf_pairwise ignoreDirs rest lvl hwrest, ?_⟩
      · rw [List.pairwise_cons]
        constructor
        · -- no subtree key is a strict ancestor of [name]
          intro b hb
          rw [hkeysmap, List.mem_map] at hb
          obtain ⟨k0, _, rfl⟩ := hb
          rintro ⟨hpre, hne⟩
          rw [List.cons_prefix_cons, List.prefix_nil] at hpre
          exact hne (by rw [hpre.2])
        · -- within the subtree block, lift the subtree ordering
          rw [hkeysmap]
          exact List.pairwise_map.mpr
            ((dirsOf_pairwise ignoreDirs sub (lvl + 1) hwsub).imp
              (fun hab => by
                rintro ⟨hpre, hne⟩
                rw [List.cons_prefix_cons] at hpre
                exact hab ⟨hpre.2, fun hcon => hne (by rw [hcon])⟩))
      · -- later siblings never produce ancestors of this block
        intro a ha b hb
        rintro ⟨hpre, hne⟩
        obtain ⟨h, tl, rfl, hmem⟩ :=
          dirsOf_keys_shape ignoreDirs rest lvl _ hb
        rcases List.mem_cons.mp ha with rfl | ha
        · rw [List.cons_prefix_cons] at hpre
          exact hname (hpre.1 ▸ hmem)
        · rw [hkeysmap, List.mem_map] at ha
          obtain ⟨k0, _, rfl⟩ := ha
          rw [List.cons_prefix_cons] at hpre
          exact hname (hpre.1 ▸ hmem)
  termination_by es => sizeOf es

theorem scan_dirs_eq (ignoreDirs : List String) :
    ∀ (es : List FSEntry) (lvl : Nat) (acc : Scan3), wfTree es = true →
      (∀ k ∈ acc.dirs.map Prod.fst, ∀ e ∈ es, k.head? ≠ some (entryName e)) →
      (scanList ignoreDirs lvl acc es).dirs =
        acc.dirs ++ dirsOf ignoreDirs lvl es
  | [], _, acc => by
    intro _ _
    simp [scanList, dirsOf]
  | FSEntry.file name mtime :: rest, lvl, acc => by
    intro hwf hdisj
    simp only [wfTree, Bool.and_eq_true] at hwf
    simp only [scanList, dirsOf]
    have hdisj2 : ∀ k ∈ (fileStep acc name mtime).dirs.map Prod.fst,
        ∀ e ∈ rest, k.head? ≠ some (entryName e) := by
      intro k hk e he
      rw [fileStep_dirs] at hk
      exact hdisj k hk e (List.mem_cons_of_mem _ he)
    rw [scan_dirs_eq ignoreDirs rest lvl _ hwf.2 hdisj2, fileStep_dirs]
  | FSEntry.dir name sub :: rest, lvl, acc => by
    intro hwf hdisj
    simp only [wfTree, Bool.and_eq_true, decide_eq_true_eq] at hwf
    obtain ⟨⟨hname, hwsub⟩, hwrest⟩ := hwf
    by_cases hig : name ∈ ignoreDirs
    · simp only [scanList, if_pos hig, dirsOf, if_pos hig]
      exact scan_dirs_eq ignoreDirs rest lvl acc hwrest
        (fun k hk e he => hdisj k hk e (List.mem_cons_of_mem _ he))
    · simp only [scanList, if_neg hig, dirsOf]
      have hsub : (scanList ignoreDirs (lvl + 1) ⟨[], [], []⟩ sub).dirs =
          dirsOf ignoreDirs (lvl + 1) sub := by
        simpa using scan_dirs_eq ignoreDirs sub (lvl + 1) ⟨[], [], []⟩ hwsub
          (by simp)
      have hn1 : [name] ∉ acc.dirs.map Prod.fst := fun hcon =>
        hdisj [name] hcon (FSEntry.dir name sub) (by simp) (by simp [entryName])
      have hstep1 : dictSet acc.dirs [name] lvl = acc.dirs ++ [([name], lvl)] :=
        dictSet_of_not_mem _ _ hn1
      have hds : (dirStep lvl name acc
          (scanList ignoreDirs (lvl + 1) ⟨[], [], []⟩ sub)).dirs =
          dictUpdate (dictSet acc.dirs [name] lvl)
            ((scanList ignoreDirs (lvl + 1) ⟨[], [], []⟩ sub).dirs.map
              fun p => (name :: p.1, p.2)) := rfl
      have hmappedkeys : ((dirsOf ignoreDirs (lvl + 1) sub).map
          (fun p => (name :: p.1, p.2))).map Prod.fst =
          ((dirsOf ignoreDirs (lvl + 1) sub).map Prod.fst).map
            (fun k => name :: k) := by
        simp [List.map_map, Function.comp]
      have hupd : dictUpdate (acc.dirs ++ [([name], lvl)])
          ((dirsOf ignoreDirs (lvl + 1) sub).map fun p => (name :: p.1, p.2)) =
          (acc.dirs ++ [([name], lvl)]) ++
            ((dirsOf ignoreDirs (lvl + 1) sub).map
              fun p => (name :: p.1, p.2)) := by
        refine dictUpdate_of_fresh _ _ ?_ ?_
        · intro k hk
          rw [hmappedkeys, List.mem_map] at hk
          obtain ⟨k0, hk0, rfl⟩ := hk
          simp only [List.map_append, List.mem_append, not_or]
          constructor
          · intro hcon
            exact hdisj _ hcon (FSEntry.dir name sub) (by simp)
              (by simp [entryName])
          · obtain ⟨h, tl, rfl, _⟩ :=
              dirsOf_keys_shape ignoreDirs sub (lvl + 1) k0 hk0
            simp
        · rw [hmappedkeys]
          exact (dirsOf_keys_nodup ignoreDirs sub (lvl + 1) hwsub).map
            (fun a b hab => by simpa using hab)
      have haccdirs : (dirStep lvl name acc
          (scanList ignoreDirs (lvl + 1) ⟨[], [], []⟩ sub)).dirs =
          (acc.dirs ++ [([name], lvl)]) ++
            ((dirsOf ignoreDirs (lvl + 1) sub).map
              fun p => (name :: p.1, p.2)) := by
        rw [hds, hsub, hstep1, hupd]
      have hdisj2 : ∀ k ∈ (dirStep lvl name acc
          (scanList ignoreDirs (lvl + 1) ⟨[], [], []⟩ sub)).dirs.map Prod.fst,
          ∀ e ∈ rest, k.head? ≠ some (entryName e) := by
        intro k hk e he
        rw [haccdirs] at hk
        simp only [List.map_append, List.mem_append] at hk
        rcases hk with (hk | hk) | hk
        · exact hdisj k hk e (List.mem_cons_of_mem _ he)
        · simp only [List.map_cons, List.map_nil, List.mem_singleton] at hk
          subst hk
          intro hcon
          rw [List.head?_cons] at hcon
          have heq : name = entryName e := by simpa using hcon
          exact hname (by rw [heq]; exact List.mem_map_of_mem entryName he)
        · rw [hmappedkeys, List.mem_map] at hk
          obtain ⟨k0, _, rfl⟩ := hk
          intro hcon
          rw [List.head?_cons] at hcon
          have heq : name = entryName e := by simpa using hcon
          exact hname (by rw [heq]; exact List.mem_map_of_mem entryName he)
      rw [scan_dirs_eq ignoreDirs rest lvl _ hwrest hdisj2, haccdirs]
      simp [List.append_assoc]
  termination_by es => sizeOf es

theorem pairwise_of_mem_rel {α : Type} {R : α → α → Prop} :
    ∀ {l : List α}, (∀ a ∈ l, ∀ b ∈ l, R a b) → l.Pairwise R
  | [], _ => List.Pairwise.nil
  | a :: t, h =>
    List.Pairwise.cons (fun b hb => h a (by simp) b (by simp [hb]))
      (pairwise_of_mem_rel fun x hx y hy =>
        h x (by simp [hx]) y (by simp [hy]))

theorem pairwise_le_replicate_self (m s : Nat) :
    (List.replicate m s).Pairwise (fun a b : Nat => a ≤ b) :=
  pairwise_of_mem_rel fun a ha b hb => by
    rw [List.eq_of_mem_replicate ha, List.eq_of_mem_replicate hb]

theorem pairwise_le_replicate_prepend (m s : Nat) {l : List Nat}
    (hl : l.Pairwise (fun a b : Nat => a ≤ b)) (hmin : ∀ x ∈ l, s ≤ x) :
    ((List.replicate m s ++ l).Pairwise fun a b : Nat => a ≤ b) ∧
      ∀ x ∈ List.replicate m s ++ l, s ≤ x := by
  constructor
  · rw [List.pairwise_append]
    refine ⟨pairwise_le_replicate_self m s, hl, ?_⟩
    intro a ha b hb
    rw [List.eq_of_mem_replicate ha]
    exact hmin b hb
  · intro x hx
    rcases List.mem_append.mp hx with hx | hx
    · rw [List.eq_of_mem_replicate hx]
    · exact hmin x hx

theorem map_stage_block {α : Type} (f : α → Event) (s : Nat)
    (hf : ∀ a, stageOf (f a) = s) (l : List α) :
    (l.map f).map stageOf = List.replicate l.length s := by
  rw [List.map_map, show stageOf ∘ f = fun _ => s from funext fun a => hf a]
  exact List.map_const' l s

theorem trace_stage_sorted (c : CompData) :
    ((synchronise_trace c).map stageOf).Pairwise (fun a b => a ≤ b) := by
  have htrace : (synchronise_trace c).map stageOf =
      List.replicate c.dirs_to_copy.length 0 ++
      (List.replicate c.rest_to_copy.length 1 ++
      (List.replicate c.music_changed.length 2 ++
      (List.replicate c.music_leftonly.length 3 ++
      (List.replicate c.music_to_delete.length 4 ++
      (List.replicate c.rest_to_delete.length 5 ++
      List.replicate (c.dirs_to_delete.map Prod.fst).reverse.length 6))))) := by
    simp only [synchronise_trace, List.map_append]
    rw [map_stage_block (fun p : RKey × Nat => Event.mkdir p.1) 0 (fun _ => rfl),
      map_stage_block Event.copyOther 1 (fun _ => rfl),
      map_stage_block Event.musicChanged 2 (fun _ => rfl),
      map_stage_block Event.musicNew 3 (fun _ => rfl),
      map_stage_block (fun p : RKey × MusicVal => Event.delMusic p.1) 4
        (fun _ => rfl),
      map_stage_block Event.delOther 5 (fun _ => rfl),
      map_stage_block Event.rmdir 6 (fun _ => rfl)]
    simp [List.append_assoc]
  rw [htrace]
  have h6 := pairwise_le_replicate_self
    (c.dirs_to_delete.map Prod.fst).reverse.length 6
  have hm6 : ∀ x ∈ List.replicate
      (c.dirs_to_delete.map Prod.fst).reverse.length 6, (6 : Nat) ≤ x :=
    fun x hx => le_of_eq (List.eq_of_mem_replicate hx).symm
  have h5 := pairwise_le_replicate_prepend c.rest_to_delete.length 5 h6
    (fun x hx => le_trans (by omega) (hm6 x hx))
  have h4 := pairwise_le_replicate_prepend c.music_to_delete.length 4 h5.1
    (fun x hx => le_trans (by omega) (h5.2 x hx))
  have h3 := pairwise_le_replicate_prepend c.music_leftonly.length 3 h4.1
    (fun x hx => le_trans (by omega) (h4.2 x hx))
  have h2 := pairwise_le_replicate_prepend c.music_changed.length 2 h3.1
    (fun x hx => le_trans (by omega) (h3.2 x hx))
  have h1 := pairwise_le_replicate_prepend c.rest_to_copy.length 1 h2.1
    (fun x hx => le_trans (by omega) (h2.2 x hx))
  have h0 := pairwise_le_replicate_prepend c.dirs_to_copy.length 0 h1.1
    (fun x hx => le_trans (by omega) (h1.2 x hx))
  exact h0.1

theorem filterMap_rmdirKey_none {α : Type} (f : α → Event)
    (hf : ∀ a, rmdirKey (f a) = none) (l : List α) :
    (l.map f).filterMap rmdirKey = [] := by
  induction l with
  | nil => rfl
  | cons a t ih => simp [List.filterMap_cons, hf, ih]

theorem filterMap_rmdirKey_rmdir (l : List RKey) :
    (l.map Event.rmdir).filterMap rmdirKey = l := by
  induction l with
  | nil => rfl
  | cons a t ih => simp [List.filterMap_cons, rmdirKey, ih]

theorem trace_rmdirs (c : CompData) :
    (synchronise_trace c).filterMap rmdirKey =
      (c.dirs_to_delete.map Prod.fst).reverse := by
  simp only [synchronise_trace, List.filterMap_append,
    filterMap_rmdirKey_none (fun p : RKey × Nat => Event.mkdir p.1)
      (fun _ => rfl),
    filterMap_rmdirKey_none Event.copyOther (fun _ => rfl),
    filterMap_rmdirKey_none Event.musicChanged (fun _ => rfl),
    filterMap_rmdirKey_none Event.musicNew (fun _ => rfl),
    filterMap_rmdirKey_none (fun p : RKey × MusicVal => Event.delMusic p.1)
      (fun _ => rfl),
    filterMap_rmdirKey_none Event.delOther (fun _ => rfl),
    filterMap_rmdirKey_rmdir]
  simp

theorem mem_trace_front_not_rmdir {c : CompData} {a : Event}
    (h : a ∈ c.dirs_to_copy.map (fun p => Event.mkdir p.1)
      ++ c.rest_to_copy.map Event.copyOther
      ++ c.music_changed.map Event.musicChanged
      ++ c.music_leftonly.map Event.musicNew
      ++ c.music_to_delete.map (fun p => Event.delMusic p.1)
      ++ c.rest_to_delete.map Event.delOther) : isRmdir a = false := by
  simp only [List.mem_append, List.mem_map] at h
  rcases h with ((((h | h) | h) | h) | h) | h <;>
    · obtain ⟨x, _, rfl⟩ := h
      rfl

theorem trace_rmdir_after_delete (c : CompData) :
    (synchronise_trace c).Pairwise
      (fun a b => ¬(isRmdir a = true ∧ isFileDelete b = true)) := by
  rw [synchronise_trace, List.pairwise_append]
  refine ⟨?_, ?_, ?_⟩
  · refine pairwise_of_mem_rel fun a ha b hb => ?_
    rintro ⟨hra, _⟩
    rw [mem_trace_front_not_rmdir ha] at hra
    exact Bool.false_ne_true hra
  · refine pairwise_of_mem_rel fun a ha b hb => ?_
    rintro ⟨_, hfb⟩
    obtain ⟨k, _, rfl⟩ := List.mem_map.mp hb
    exact Bool.false_ne_true hfb
  · intro a ha b hb
    rintro ⟨hra, _⟩
    rw [mem_trace_front_not_rmdir ha] at hra
    exact Bool.false_ne_true hra

theorem trace_rmdir_children_first (ignoreDirs : List String)
    (left right : List FSEntry) (hwf : wfTree right = true) :
    ((synchronise_trace (mkCompResult (get_files_dirs ignoreDirs left)
        (get_files_dirs ignoreDirs right))).filterMap rmdirKey).Pairwise
      (fun a b => ¬(a <+: b ∧ a ≠ b)) := by
  rw [trace_rmdirs, List.pairwise_reverse]
  have hscan : (get_files_dirs ignoreDirs right).dirs =
      dirsOf ignoreDirs 0 right := by
    simpa using scan_dirs_eq ignoreDirs right 0 ⟨[], [], []⟩ hwf (by simp)
  have hdel : (mkCompResult (get_files_dirs ignoreDirs left)
      (get_files_dirs ignoreDirs right)).dirs_to_delete =
      (get_files_dirs ignoreDirs right).dirs.filter
        (fun p => (dlookup (get_files_dirs ignoreDirs left).dirs p.1).isNone) :=
    rfl
  rw [hdel, hscan]
  exact List.Pairwise.sublist
    ((List.filter_sublist (dirsOf ignoreDirs 0 right)).map Prod.fst)
    (dirsOf_pairwise ignoreDirs right 0 hwf)

theorem remove_dirs_error_propagates (c : CompData) (s : List RKey)
    (k : RKey) (l : List RKey) (e : String)
    (hshape : (c.dirs_to_delete.map Prod.fst).reverse = k :: l)
    (hstep : rmdirStep s k = .error e) : remove_dirs_exec c s = .error e := by
  rw [remove_dirs_exec, hshape, List.foldlM_cons, hstep]
  rfl

/-- C8: `synchronise` runs its seven stages in the fixed order (the
stage index along the trace is monotone); the directory deletions are
exactly the discovered dirsToDelete keys in reverse discovery order; no
directory deletion precedes any file deletion; on scanned trees no
directory is removed before anything inside it (no rmdir of a key
precedes the rmdir of a strict extension of it); and a failing `os.rmdir`
aborts `_remove_dirs` rather than being skipped. -/
theorem C8_apply_order :
    (∀ c : CompData,
      ((synchronise_trace c).map stageOf).Pairwise (fun a b => a ≤ b)) ∧
    (∀ c : CompData, (synchronise_trace c).filterMap rmdirKey =
      (c.dirs_to_delete.map Prod.fst).reverse) ∧
    (∀ c : CompData, (synchronise_trace c).Pairwise
      (fun a b => ¬(isRmdir a = true ∧ isFileDelete b = true))) ∧
    (∀ (ignoreDirs : List String) (left right : List FSEntry),
      wfTree right = true →
      ((synchronise_trace (mkCompResult (get_files_dirs ignoreDirs left)
          (get_files_dirs ignoreDirs right))).filterMap rmdirKey).Pairwise
        (fun a b => ¬(a <+: b ∧ a ≠ b))) ∧
    (∀ (c : CompData) (s : List RKey) (k : RKey) (l : List RKey) (e : String),
      (c.dirs_to_delete.map Prod.fst).reverse = k :: l →
      rmdirStep s k = .error e → remove_dirs_exec c s = .error e) :=
  ⟨trace_stage_sorted, trace_rmdirs, trace_rmdir_after_delete,
    trace_rmdir_children_first, remove_dirs_error_propagates⟩

theorem C8_apply_order_witness :
    (wfTree [FSEntry.dir "a" [FSEntry.dir "b" []]] = true ∧
      ((synchronise_trace (mkCompResult (get_files_dirs [] [])
          (get_files_dirs [] [FSEntry.dir "a" [FSEntry.dir "b" []]]))).filterMap
        rmdirKey).Pairwise (fun a b => ¬(a <+: b ∧ a ≠ b))) ∧
    ((((⟨[], [(["d"], 0)], [], [], [], [], []⟩ :
        CompData).dirs_to_delete.map Prod.fst).reverse = [["d"]]) ∧
      rmdirStep [] ["d"] = .error "FileNotFoundError" ∧
      remove_dirs_exec ⟨[], [(["d"], 0)], [], [], [], [], []⟩ [] =
        .error "FileNotFoundError") := by
  have hwf : wfTree [FSEntry.dir "a" [FSEntry.dir "b" []]] = true := by
    simp [wfTree, entryName]
  refine ⟨⟨hwf, C8_apply_order.2.2.2.1 [] [] _ hwf⟩, rfl, rfl, ?_⟩
  exact C8_apply_order.2.2.2.2 ⟨[], [(["d"], 0)], [], [], [], [], []⟩ []
    ["d"] [] "FileNotFoundError" rfl rfl

theorem C2_other_copy_delete_witness :
    "a" ∈ (compare_files [(("a" : String), (1 : Int))] [("a", (2 : Int))]).1 :=
  (C2_other_copy_delete [("a", 1)] [("a", 2)] "a").1.mpr
    ⟨by decide, Or.inr (by decide)⟩

theorem C6_ignored_frames_dropped_witness :
    id3Fold vorbis_to_id3_map id3_frames_to_ignore [] []
      [(⟨"TSSE", none⟩, ⟨"TSSE", none, some [['x']]⟩)] = .ok [] := by
  have h := (C6_ignored_frames_dropped []
    [(⟨"TSSE", none⟩, ⟨"TSSE", none, some [['x']]⟩)] []).1
  rw [← h]
  rfl

theorem C7_ignored_dirs_excluded_witness :
    get_files_dirs ["ign"]
        (pruneList ["ign"] [FSEntry.dir "ign" [FSEntry.file "x.txt" 1]]) =
      get_files_dirs ["ign"] [FSEntry.dir "ign" [FSEntry.file "x.txt" 1]] :=
  (C7_ignored_dirs_excluded ["ign"]
    [FSEntry.dir "ign" [FSEntry.file "x.txt" 1]]).1

end SyncMp3
